import Mathlib

/-!
Verification of the yacht-port simulation (`src/port_simulation.c`).

The file shallow-embeds the core of the program: the grid and its zone
partitioning (quay / free / oil-pump columns), the docking-spot search with
its quay-distance score, the allocation policy driven by oil level and
waiting time, the release logic that recomputes each cell's home class,
the bounded queue/docked lists, the refuelling branch of the yacht state
machine, and the crew pool.  Machine integers are modelled as `Nat`/`Int`
(all quantities involved stay far from overflow), the grid as a function
`Nat → Nat → Int` using the same occupancy codes as the source
(`-1` free, `-2` quay, `-3` oil pump, a positive id for an occupying
yacht).  Concurrency is modelled by a small-step relation on states whose
steps are the (mutex-protected, hence atomic) claim and release
operations of the source.
-/

/-! ### Constants (`#define`s of the source) -/

def PORT_ROWS : Nat := 20
def PORT_COLS : Nat := 25
def SLOT_SIZE : Nat := 5
def MAX_QUEUE : Nat := 10
def MAX_DOCKED : Nat := 20
def QUAY_LENGTH : Nat := 3
def MAX_CREWS : Nat := 4

/-! ### Zone partitioning

`main` (lines 566-589) walks each row with `next_quay = 0`,
`spacing = QUAY_LENGTH`, `last_quay_col = PORT_COLS`, marking column `c` a
quay when `c == next_quay` (then `next_quay += spacing; spacing++`), and
otherwise an oil pump if `last_quay_col > floor(PORT_COLS/2)` else free.
`release_slot` (lines 398-409) recomputes the same classification from
scratch with `last_quay_col` starting at `-1`. -/

/-- The grid: occupancy code of each (row, column).  Codes as in the
source: `-1` free, `-2` quay, `-3` oil pump, positive ids for yachts. -/
def Grid : Type := Nat → Nat → Int

/-- Scan state of the quay-layout loop in `main`: the next quay column,
the current gap, and the most recently placed quay column
(initially `PORT_COLS`). -/
structure ZState where
  next : Nat
  spacing : Nat
  last : Nat
deriving DecidableEq

/-- One iteration of the column loop of `main`: returns the class of the
current column `c` and the updated scan state. -/
def zstep (c : Nat) (s : ZState) : Int × ZState :=
  if c = s.next then (-2, ⟨s.next + s.spacing, s.spacing + 1, c⟩)
  else (if ((s.last : Int) > ((PORT_COLS / 2 : Nat) : Int)) then -3 else -1, s)

/-- Run the column loop of `main` from column `cur` with state `st` for
`k` more columns, returning the class of column `cur + k`. -/
def initClassFrom : Nat → ZState → Nat → Int
  | cur, st, 0 => (zstep cur st).1
  | cur, st, k + 1 => initClassFrom (cur + 1) (zstep cur st).2 k

/-- The class `main` assigns to column `c` at initialization
(row-independent). -/
def initClass (c : Nat) : Int :=
  initClassFrom 0 ⟨0, QUAY_LENGTH, PORT_COLS⟩ c

/-- The freshly initialized port grid of `main`. -/
def initGrid : Grid := fun _ c => initClass c

/-- Scan state of the recomputation loop in `release_slot`:
`next_quay`, `spacing`, and `last_quay_col` (initially `-1`). -/
structure RState where
  next : Nat
  spacing : Nat
  last : Int
deriving DecidableEq

/-- One iteration of the `for (qc = 0; qc <= slot_c; qc++)` loop of
`release_slot`. -/
def rstep (qc : Nat) (s : RState) : RState :=
  if qc = s.next then ⟨s.next + s.spacing, s.spacing + 1, (qc : Int)⟩ else s

/-- Run the `release_slot` scan from column `cur` for `k` iterations and
return the final `last_quay_col`. -/
def rScan : Nat → Nat → RState → Int
  | _, 0, s => s.last
  | cur, k + 1, s => rScan (cur + 1) k (rstep cur s)

/-- `last_quay_col` as recomputed by `release_slot` for column `c`
(the loop runs for `qc = 0 .. c`). -/
def last_quay_col (c : Nat) : Int :=
  rScan 0 (c + 1) ⟨0, QUAY_LENGTH, -1⟩

/-- The class `release_slot` restores a released cell of column `c` to:
oil pump when the most recently passed quay column exceeds
`floor(PORT_COLS / 2)`, free otherwise. -/
def releaseClass (c : Nat) : Int :=
  if last_quay_col c > ((PORT_COLS / 2 : Nat) : Int) then -3 else -1

/-! ### Yachts and footprints -/

/-- The fields of a yacht relevant to scheduling (the `Yacht` struct of
the source minus its `state` field, which the lifecycle model keeps
separately). -/
structure YachtS where
  id : Int
  length : Nat
  width : Nat
  oil_level : Int
  need_cleaning : Bool
  need_repair : Bool
  waiting_time : Nat
deriving DecidableEq

/-- `ceil((double)x / SLOT_SIZE)` for the sizes of the source
(`assign_to_port`, `release_slot` lines 328-329, 387-388): the numbers
involved are small enough that the double arithmetic is exact. -/
def slotsFor (x : Nat) : Nat := (x + SLOT_SIZE - 1) / SLOT_SIZE

/-! ### Docking search (`can_dock_here`, `find_best_docking_spot`) -/

/-- `can_dock_here` (lines 273-283): the footprint must lie inside the
grid and every covered cell must hold exactly `required_id`. -/
def can_dock_here (g : Grid) (r c sl sw : Nat) (required : Int) : Bool :=
  (List.range sl).all fun i =>
    (List.range sw).all fun j =>
      decide (r + i < PORT_ROWS) && decide (c + j < PORT_COLS) &&
        (g (r + i) (c + j) == required)

/-- The leftward quay scan of `find_best_docking_spot` (lines 298-303):
from column `left` downwards in row `r`, the distance `j - left` to the
first quay cell, defaulting to `PORT_COLS * SLOT_SIZE`. -/
def leftScan (g : Grid) (r j : Nat) : Nat → Nat
  | 0 => if g r 0 == -2 then j else PORT_COLS * SLOT_SIZE
  | l + 1 => if g r (l + 1) == -2 then j - (l + 1) else leftScan g r j l

/-- Distance from column `j` to the nearest quay scanning left in row `r`. -/
def leftDist (g : Grid) (r j : Nat) : Nat := leftScan g r j j

/-- The rightward quay scan of `find_best_docking_spot` (lines 304-309),
written with explicit fuel so that it evaluates by kernel reduction; the
fuel `PORT_COLS` is enough for the scan to reach the grid edge. -/
def rightScanF (g : Grid) (r j : Nat) : Nat → Nat → Nat
  | _, 0 => PORT_COLS * SLOT_SIZE
  | right, f + 1 =>
    if right < PORT_COLS then
      if g r right == -2 then right - j
      else rightScanF g r j (right + 1) f
    else PORT_COLS * SLOT_SIZE

/-- Distance from column `j` to the nearest quay scanning right in row `r`. -/
def rightDist (g : Grid) (r j : Nat) : Nat := rightScanF g r j j PORT_COLS

/-- Per-column quay distance: the smaller of the left and right scans
(line 310). -/
def colDist (g : Grid) (r j : Nat) : Nat := min (leftDist g r j) (rightDist g r j)

/-- The locality score of a candidate at `(r, c)` spanning `sw` columns:
minimum of the per-column distances, starting from
`PORT_COLS * SLOT_SIZE` (lines 294-313). -/
def candScore (g : Grid) (r c sw : Nat) : Nat :=
  (List.range sw).foldl (fun m j => min m (colDist g r (c + j))) (PORT_COLS * SLOT_SIZE)

/-- Result triple of `find_best_docking_spot` (`best_r`, `best_c`,
`best_quay_distance`), with the source's `-1` sentinels. -/
structure BestSpot where
  r : Int
  c : Int
  dist : Nat
deriving DecidableEq

/-- The row-major list of top-left positions scanned both by
`find_best_docking_spot` (lines 291-292) and by the block scan of
`release_slot` (lines 391-392). -/
def scanPositions (sl sw : Nat) : List (Nat × Nat) :=
  (List.range (PORT_ROWS - sl + 1)).flatMap fun r =>
    (List.range (PORT_COLS - sw + 1)).map fun c => (r, c)

/-- The body of the candidate loop of `find_best_docking_spot`: keep the
incumbent unless the position is valid and has a strictly smaller score. -/
def considerSpot (g : Grid) (sl sw : Nat) (required : Int) (b : BestSpot)
    (p : Nat × Nat) : BestSpot :=
  if can_dock_here g p.1 p.2 sl sw required then
    let s := candScore g p.1 p.2 sw
    if s < b.dist then ⟨(p.1 : Int), (p.2 : Int), s⟩ else b
  else b

/-- `find_best_docking_spot` (lines 286-322). -/
def find_best_docking_spot (g : Grid) (sl sw : Nat) (required : Int) : BestSpot :=
  (scanPositions sl sw).foldl (considerSpot g sl sw required)
    ⟨-1, -1, PORT_COLS * SLOT_SIZE⟩

/-! ### Claiming and releasing blocks -/

/-- Marking the whole footprint with the yacht's id
(`assign_to_port` lines 353-355). -/
def claimBlock (g : Grid) (id : Int) (r c sl sw : Nat) : Grid :=
  fun r' c' =>
    if r ≤ r' ∧ r' < r + sl ∧ c ≤ c' ∧ c' < c + sw then id else g r' c'

/-- The block test of `release_slot` (lines 393-396): every cell of the
footprint at `(r, c)` holds `id`. -/
def blockAll (g : Grid) (id : Int) (r c sl sw : Nat) : Bool :=
  (List.range sl).all fun i =>
    (List.range sw).all fun j => g (r + i) (c + j) == id

/-- Restoring a block via the recomputed zone class
(`release_slot` lines 398-409). -/
def restoreBlock (g : Grid) (r c sl sw : Nat) : Grid :=
  fun r' c' =>
    if r ≤ r' ∧ r' < r + sl ∧ c ≤ c' ∧ c' < c + sw then releaseClass c'
    else g r' c'

/-- `release_slot` (grid part, lines 384-414): find the first block of
the yacht's footprint entirely marked with its id, in row-major order,
and restore each of its cells to the recomputed zone class. -/
def release_slot (g : Grid) (id : Int) (sl sw : Nat) : Grid :=
  match (scanPositions sl sw).find? (fun p => blockAll g id p.1 p.2 sl sw) with
  | some (r, c) => restoreBlock g r c sl sw
  | none => g

/-! ### Queue, docked list, allocation policy -/

/-- `add_to_queue` (lines 266-270): silently dropped at capacity. -/
def add_to_queue (q : List YachtS) (y : YachtS) : List YachtS :=
  if q.length < MAX_QUEUE then q ++ [y] else q

/-- Adding to the docked list (`assign_to_port` lines 374-378):
silently dropped at capacity. -/
def add_to_docked (d : List YachtS) (y : YachtS) : List YachtS :=
  if d.length < MAX_DOCKED then d ++ [y] else d

/-- Removal of the first queue entry with the yacht's id
(`assign_to_port` lines 363-372). -/
def remove_from_queue (q : List YachtS) (id : Int) : List YachtS :=
  q.eraseP (fun e => e.id == id)

/-- Outcome of one allocation attempt: either no placement, or a
placement at `(r, c)` with `onFuel` telling whether the claimed region
is an oil-pump region. -/
inductive AssignResult where
  | noDock : AssignResult
  | docked (r c : Nat) (onFuel : Bool) : AssignResult
deriving DecidableEq

/-- The eligibility and search policy of `assign_to_port`
(lines 334-350): oil below 50 restricts the search to oil-pump regions;
otherwise free regions are tried first, and oil-pump regions only when
that fails and the yacht has waited at least 15 time units. -/
def assign_decision (g : Grid) (y : YachtS) : AssignResult :=
  let sl := slotsFor y.length
  let sw := slotsFor y.width
  if y.oil_level < 50 then
    let b := find_best_docking_spot g sl sw (-3)
    if b.r ≠ -1 ∧ b.c ≠ -1 then AssignResult.docked b.r.toNat b.c.toNat true
    else AssignResult.noDock
  else
    let b := find_best_docking_spot g sl sw (-1)
    if b.r ≠ -1 ∧ b.c ≠ -1 then AssignResult.docked b.r.toNat b.c.toNat false
    else if 15 ≤ y.waiting_time then
      let b2 := find_best_docking_spot g sl sw (-3)
      if b2.r ≠ -1 ∧ b2.c ≠ -1 then AssignResult.docked b2.r.toNat b2.c.toNat true
      else AssignResult.noDock
    else AssignResult.noDock

/-- Combined effect of a successful or failed `assign_to_port` call
(lines 325-381) on the grid, the waiting queue, the docked list and the
yacht's state (1 = waiting, 2 = docked, 4 = docked at fuel station). -/
structure AssignEffect where
  grid : Grid
  queue : List YachtS
  docked : List YachtS
  stateAfter : Nat

/-- `assign_to_port` (lines 325-381). -/
def assign_to_port (g : Grid) (q d : List YachtS) (y : YachtS) : AssignEffect :=
  match assign_decision g y with
  | AssignResult.noDock => ⟨g, q, d, 1⟩
  | AssignResult.docked r c onFuel =>
    ⟨claimBlock g y.id r c (slotsFor y.length) (slotsFor y.width),
     remove_from_queue q y.id,
     add_to_docked d y,
     if onFuel then 4 else 2⟩

/-! ### Statistics, refuelling, yacht lifecycle branches -/

/-- The `PortStats` counters of the source. -/
structure StatsS where
  total_yachts_serviced : Nat
  total_waiting_time : Nat
  max_waiting_time : Nat
  total_cleanings : Nat
  total_repairs : Nat
  total_refuels : Nat
deriving DecidableEq

/-- The refuel loop of `yacht_thread` (lines 193-207) with explicit
fuel so that it evaluates by kernel reduction: returns the final oil
level and the number of one-percent increments performed.  Fuel `200`
is enough for every oil level the program produces (`1 .. 100`). -/
def refuelSteps : Int → Nat → Int × Nat
  | oil, 0 => (oil, 0)
  | oil, f + 1 =>
    if oil < 100 then
      let r := refuelSteps (oil + 1) f
      (r.1, r.2 + 1)
    else (oil, 0)

/-- The refuel loop: `while (oil < 100) { oil++; }`. -/
def refuelLoop (oil : Int) : Int × Nat := refuelSteps oil 200

/-- Result of the fuel-station branch of `yacht_thread`
(lines 187-221): the updated yacht copy, statistics, queue and grid,
the resulting lifecycle state (1 = waiting, 3 = leaving) and the number
of fuel increments performed. -/
structure FuelBranchOut where
  yacht : YachtS
  stats : StatsS
  queue : List YachtS
  grid : Grid
  stateAfter : Nat
  increments : Nat

/-- The fuel-station branch of `yacht_thread` (lines 187-221): count one
refuel event up front, run the refuel loop to 100, release the region,
and either re-enqueue with waiting time reset (service still pending) or
leave. -/
def fuel_station_branch (g : Grid) (st : StatsS) (q : List YachtS)
    (y : YachtS) : FuelBranchOut :=
  let st1 : StatsS := { st with total_refuels := st.total_refuels + 1 }
  let res := refuelLoop y.oil_level
  let y1 : YachtS := { y with oil_level := res.1 }
  let g1 := release_slot g y1.id (slotsFor y1.length) (slotsFor y1.width)
  if y1.need_cleaning || y1.need_repair then
    let y2 : YachtS := { y1 with waiting_time := 0 }
    ⟨y2, st1, add_to_queue q y2, g1, 1, res.2⟩
  else
    ⟨y1, st1, q, g1, 3, res.2⟩

/-! ### Crews and the docked-service branch -/

/-- The `PortCrew` struct of the source. -/
structure PortCrewS where
  id : Nat
  yacht_id : Int
  state : Nat
  job_id : Nat
deriving DecidableEq

/-- A placeholder crew used as the out-of-range default of list
lookups; its `state` is nonzero so it never counts as idle. -/
def dummyCrew : PortCrewS := ⟨0, -1, 1, 0⟩

/-- The crew pool as initialized by `main` (lines 592-601): ids
`0 .. MAX_CREWS - 1`, all idle, the first half cleaning (`job_id` 1),
the rest repair (`job_id` 2). -/
def init_crews : List PortCrewS :=
  (List.range MAX_CREWS).map fun i =>
    ⟨i, -1, 0, if i < MAX_CREWS / 2 then 1 else 2⟩

/-- The index-order scan for an idle crew in `[lo, hi)`
(`yacht_thread` lines 138-149 and 161-172). -/
def find_idle_crew (crews : List PortCrewS) (lo hi : Nat) : Option Nat :=
  (List.range' lo (hi - lo)).find? fun i => (crews.getD i dummyCrew).state == 0

/-- Observable events of the docked-service branch, in program order. -/
inductive ServiceEv where
  | cleaningEpisode (crew : Nat) : ServiceEv
  | repairEpisode (crew : Nat) : ServiceEv
  | releaseRegion : ServiceEv
  | leave : ServiceEv
deriving DecidableEq

/-- The docked branch of `yacht_thread` (lines 131-186) for a single
yacht against a fixed crew pool: the cleaning episode (first half of the
pool) runs to completion before the repair episode (second half), and
both complete before the region is released and the yacht leaves.  Each
completed episode returns its crew to the idle state it started from, so
the repair scan sees the same pool.  `none` models the branch blocking
forever because no crew of the needed class is idle. -/
def docked_branch (crews : List PortCrewS) (st : StatsS) (g : Grid)
    (y : YachtS) : Option (List ServiceEv × StatsS × Grid) :=
  let cleanPart : Option (List ServiceEv × StatsS) :=
    if y.need_cleaning then
      match find_idle_crew crews 0 (MAX_CREWS / 2) with
      | some i => some ([ServiceEv.cleaningEpisode i],
          { st with total_cleanings := st.total_cleanings + 1 })
      | none => none
    else some ([], st)
  match cleanPart with
  | none => none
  | some (ev1, st1) =>
    let repairPart : Option (List ServiceEv × StatsS) :=
      if y.need_repair then
        match find_idle_crew crews (MAX_CREWS / 2) MAX_CREWS with
        | some i => some ([ServiceEv.repairEpisode i],
            { st1 with total_repairs := st1.total_repairs + 1 })
        | none => none
      else some ([], st1)
    match repairPart with
    | none => none
    | some (ev2, st2) =>
      some (ev1 ++ ev2 ++ [ServiceEv.releaseRegion, ServiceEv.leave],
        st2, release_slot g y.id (slotsFor y.length) (slotsFor y.width))

/-! ### The claim/release transition system

The grid mutex of the source makes every `assign_to_port` and every
`release_slot` an atomic step over the grid; the reachable states of
that protocol are modelled by a small-step relation.  An active entry
records the yacht and the top-left corner of its claimed block. -/

/-- A yacht currently holding a block, and where the block starts. -/
structure Entry where
  y : YachtS
  r : Nat
  c : Nat
deriving DecidableEq

/-- The cells covered by an entry's block (its footprint placed at its
top-left corner). -/
def covered (e : Entry) (r c : Nat) : Prop :=
  e.r ≤ r ∧ r < e.r + slotsFor e.y.length ∧ e.c ≤ c ∧ c < e.c + slotsFor e.y.width

instance (e : Entry) (r c : Nat) : Decidable (covered e r c) := by
  unfold covered; infer_instance

/-- A global state of the claim/release protocol. -/
structure SimState where
  grid : Grid
  active : List Entry

/-- Atomic steps: a successful allocation (grid claim as performed under
the port mutex, for a yacht with a positive, fresh id and nonzero
dimensions, exactly as `main` spawns them), or a release by an active
yacht. -/
inductive Step : SimState → SimState → Prop where
  | assign (s : SimState) (y : YachtS) (r c : Nat) (onFuel : Bool) :
      1 ≤ y.id → 0 < y.length → 0 < y.width →
      (∀ e ∈ s.active, e.y.id ≠ y.id) →
      assign_decision s.grid y = AssignResult.docked r c onFuel →
      Step s ⟨claimBlock s.grid y.id r c (slotsFor y.length) (slotsFor y.width),
        ⟨y, r, c⟩ :: s.active⟩
  | free (s : SimState) (l1 l2 : List Entry) (e : Entry) :
      s.active = l1 ++ e :: l2 →
      Step s ⟨release_slot s.grid e.y.id (slotsFor e.y.length) (slotsFor e.y.width),
        l1 ++ l2⟩

/-- States reachable from the freshly initialized port. -/
inductive Reachable : SimState → Prop where
  | init : Reachable ⟨initGrid, []⟩
  | step {s s' : SimState} : Reachable s → Step s s' → Reachable s'

/-! ### Specification-side predicates -/

/-- A valid candidate position for a footprint `sl × sw` of class
`required`: fully in bounds and with every covered cell holding exactly
that class. -/
def Cand (g : Grid) (sl sw : Nat) (required : Int) (p : Nat × Nat) : Prop :=
  p.1 + sl ≤ PORT_ROWS ∧ p.2 + sw ≤ PORT_COLS ∧
    ∀ i < sl, ∀ j < sw, g (p.1 + i) (p.2 + j) = required

instance (g : Grid) (sl sw : Nat) (required : Int) (p : Nat × Nat) :
    Decidable (Cand g sl sw required p) := by
  unfold Cand; infer_instance

/-- Specification of the leftward quay distance from column `j` in row
`r`: the least offset `k` with a quay at `j - k`, or the sentinel
`PORT_COLS * SLOT_SIZE` when no quay lies at or left of `j`. -/
def IsLeftQuayDist (g : Grid) (r j d : Nat) : Prop :=
  (d ≤ j ∧ g r (j - d) = -2 ∧ ∀ k < d, g r (j - k) ≠ -2) ∨
  (d = PORT_COLS * SLOT_SIZE ∧ ∀ k ≤ j, g r (j - k) ≠ -2)

/-- Specification of the rightward quay distance from column `j` in row
`r`: the least offset `k` with an in-bounds quay at `j + k`, or the
sentinel when no quay lies at or right of `j` within the grid. -/
def IsRightQuayDist (g : Grid) (r j d : Nat) : Prop :=
  (j + d < PORT_COLS ∧ g r (j + d) = -2 ∧ ∀ k < d, g r (j + k) ≠ -2) ∨
  (d = PORT_COLS * SLOT_SIZE ∧ ∀ k, j + k < PORT_COLS → g r (j + k) ≠ -2)

/-! ### Basic lemmas about the embedded operations -/

lemma can_dock_here_eq_true_iff (g : Grid) (r c sl sw : Nat) (required : Int) :
    can_dock_here g r c sl sw required = true ↔
      ∀ i < sl, ∀ j < sw,
        r + i < PORT_ROWS ∧ c + j < PORT_COLS ∧ g (r + i) (c + j) = required := by
  simp [can_dock_here, List.all_eq_true, List.mem_range, Bool.and_eq_true,
    decide_eq_true_eq, beq_iff_eq, and_assoc]

lemma blockAll_eq_true_iff (g : Grid) (id : Int) (r c sl sw : Nat) :
    blockAll g id r c sl sw = true ↔
      ∀ i < sl, ∀ j < sw, g (r + i) (c + j) = id := by
  simp [blockAll, List.all_eq_true, List.mem_range, beq_iff_eq]

lemma mem_scanPositions (sl sw : Nat) (p : Nat × Nat) :
    p ∈ scanPositions sl sw ↔
      p.1 < PORT_ROWS - sl + 1 ∧ p.2 < PORT_COLS - sw + 1 := by
  obtain ⟨r, c⟩ := p
  simp [scanPositions, List.mem_flatMap, List.mem_map, List.mem_range]

lemma cand_iff_can_dock (g : Grid) (sl sw : Nat) (required : Int)
    (hsl : 0 < sl) (hsw : 0 < sw) (r c : Nat) :
    Cand g sl sw required (r, c) ↔ can_dock_here g r c sl sw required = true := by
  rw [can_dock_here_eq_true_iff]
  constructor
  · rintro ⟨h1, h2, h3⟩ i hi j hj
    exact ⟨by omega, by omega, h3 i hi j hj⟩
  · intro h
    refine ⟨?_, ?_, fun i hi j hj => (h i hi j hj).2.2⟩
    · have := (h (sl - 1) (by omega) 0 hsw).1
      omega
    · have := (h 0 hsl (sw - 1) (by omega)).2.1
      omega

lemma cand_mem_scanPositions (g : Grid) (sl sw : Nat) (required : Int)
    (p : Nat × Nat)
    (h : Cand g sl sw required p) : p ∈ scanPositions sl sw := by
  rw [mem_scanPositions]
  obtain ⟨h1, h2, -⟩ := h
  omega

lemma initClassFrom_neg : ∀ (k cur : Nat) (st : ZState), initClassFrom cur st k < 0 := by
  intro k
  induction k with
  | zero =>
    intro cur st
    simp only [initClassFrom, zstep]
    split
    · norm_num
    · split <;> norm_num
  | succ n ih =>
    intro cur st
    simpa only [initClassFrom] using ih (cur + 1) (zstep cur st).2

lemma initClass_neg (c : Nat) : initClass c < 0 :=
  initClassFrom_neg c 0 _

/-- On every non-quay column of the grid, the class recomputed by
`release_slot` agrees with the class assigned at initialization. -/
lemma releaseClass_eq_initClass :
    ∀ c < PORT_COLS, initClass c ≠ -2 → releaseClass c = initClass c := by
  decide

lemma initClass_zero : initClass 0 = -2 := by decide

lemma slotsFor_pos {x : Nat} (hx : 0 < x) : 0 < slotsFor x := by
  unfold slotsFor SLOT_SIZE
  omega

/-! ### Characterization of the candidate fold -/

/-- The candidate loop of `find_best_docking_spot` over an arbitrary
list of positions. -/
def foldBest (g : Grid) (sl sw : Nat) (required : Int)
    (l : List (Nat × Nat)) (b : BestSpot) : BestSpot :=
  l.foldl (considerSpot g sl sw required) b

lemma foldBest_nil (g : Grid) (sl sw : Nat) (required : Int) (b : BestSpot) :
    foldBest g sl sw required [] b = b := rfl

lemma foldBest_cons (g : Grid) (sl sw : Nat) (required : Int)
    (p : Nat × Nat) (t : List (Nat × Nat)) (b : BestSpot) :
    foldBest g sl sw required (p :: t) b =
      foldBest g sl sw required t (considerSpot g sl sw required b p) := rfl

lemma find_best_eq_foldBest (g : Grid) (sl sw : Nat) (required : Int) :
    find_best_docking_spot g sl sw required =
      foldBest g sl sw required (scanPositions sl sw)
        ⟨-1, -1, PORT_COLS * SLOT_SIZE⟩ := rfl

/-- Full characterization of the candidate fold: the running best never
worsens, ends at most at every valid candidate's score, is either the
initial value or a valid candidate evaluated at its own score that
strictly improved on the initial value, and — when it improved — is the
first position of the list attaining the final score among valid
candidates. -/
lemma foldBest_spec (g : Grid) (sl sw : Nat) (required : Int) :
    ∀ (l : List (Nat × Nat)) (b : BestSpot),
      (foldBest g sl sw required l b).dist ≤ b.dist ∧
      (∀ p ∈ l, can_dock_here g p.1 p.2 sl sw required = true →
        (foldBest g sl sw required l b).dist ≤ candScore g p.1 p.2 sw) ∧
      (foldBest g sl sw required l b = b ∨
        ∃ p ∈ l, can_dock_here g p.1 p.2 sl sw required = true ∧
          foldBest g sl sw required l b =
            ⟨(p.1 : Int), (p.2 : Int), candScore g p.1 p.2 sw⟩ ∧
          candScore g p.1 p.2 sw < b.dist) ∧
      ((foldBest g sl sw required l b).dist < b.dist →
        ∃ l1 p l2, l = l1 ++ p :: l2 ∧
          can_dock_here g p.1 p.2 sl sw required = true ∧
          foldBest g sl sw required l b =
            ⟨(p.1 : Int), (p.2 : Int), candScore g p.1 p.2 sw⟩ ∧
          (∀ q ∈ l1, can_dock_here g q.1 q.2 sl sw required = true →
            (foldBest g sl sw required l b).dist < candScore g q.1 q.2 sw) ∧
          (∀ q ∈ l2, can_dock_here g q.1 q.2 sl sw required = true →
            (foldBest g sl sw required l b).dist ≤ candScore g q.1 q.2 sw)) := by
  intro l
  induction l with
  | nil =>
    intro b
    refine ⟨le_refl _, by simp, Or.inl rfl, ?_⟩
    intro h
    simp [foldBest_nil] at h
  | cons p t ih =>
    intro b
    by_cases hv : can_dock_here g p.1 p.2 sl sw required = true
    · by_cases hs : candScore g p.1 p.2 sw < b.dist
      · -- the head is valid and strictly improves: the accumulator becomes the head
        have hb1 : considerSpot g sl sw required b p =
            ⟨(p.1 : Int), (p.2 : Int), candScore g p.1 p.2 sw⟩ := by
          simp [considerSpot, hv, hs]
        obtain ⟨ih1, ih2, ih3, ih4⟩ :=
          ih ⟨(p.1 : Int), (p.2 : Int), candScore g p.1 p.2 sw⟩
        rw [foldBest_cons, hb1]
        refine ⟨le_trans ih1 (le_of_lt hs), ?_, ?_, ?_⟩
        · intro q hq hcq
          rcases List.mem_cons.mp hq with h | h
          · subst h; exact ih1
          · exact ih2 q h hcq
        · rcases ih3 with h | ⟨q, hq, hcq, heq, hlt⟩
          · exact Or.inr ⟨p, List.mem_cons_self p t, hv, h, hs⟩
          · exact Or.inr ⟨q, List.mem_cons_of_mem p hq, hcq, heq,
              lt_trans hlt hs⟩
        · intro _
          by_cases hlt1 : (foldBest g sl sw required t
              ⟨(p.1 : Int), (p.2 : Int), candScore g p.1 p.2 sw⟩).dist <
              candScore g p.1 p.2 sw
          · obtain ⟨l1, q, l2, hdec, hcq, heq, hl1, hl2⟩ := ih4 hlt1
            refine ⟨p :: l1, q, l2, by simp [hdec], hcq, heq, ?_, hl2⟩
            intro q' hq' hcq'
            rcases List.mem_cons.mp hq' with h | h
            · subst h; exact hlt1
            · exact hl1 q' h hcq'
          · have heqb : foldBest g sl sw required t
                ⟨(p.1 : Int), (p.2 : Int), candScore g p.1 p.2 sw⟩ =
                ⟨(p.1 : Int), (p.2 : Int), candScore g p.1 p.2 sw⟩ := by
              rcases ih3 with h | ⟨q, _, _, heq, hlt⟩
              · exact h
              · rw [heq] at hlt1 ⊢
                exact absurd hlt hlt1
            refine ⟨[], p, t, rfl, hv, heqb, by simp, ?_⟩
            intro q hq hcq
            exact ih2 q hq hcq
      · -- the head is valid but does not improve: the accumulator is kept
        have hb1 : considerSpot g sl sw required b p = b := by
          simp [considerSpot, hv, hs]
        obtain ⟨ih1, ih2, ih3, ih4⟩ := ih b
        rw [foldBest_cons, hb1]
        refine ⟨ih1, ?_, ?_, ?_⟩
        · intro q hq hcq
          rcases List.mem_cons.mp hq with h | h
          · subst h
            exact le_trans ih1 (le_of_not_lt hs)
          · exact ih2 q h hcq
        · rcases ih3 with h | ⟨q, hq, hrest⟩
          · exact Or.inl h
          · exact Or.inr ⟨q, List.mem_cons_of_mem p hq, hrest⟩
        · intro hlt
          obtain ⟨l1, q, l2, hdec, hcq, heq, hl1, hl2⟩ := ih4 hlt
          refine ⟨p :: l1, q, l2, by simp [hdec], hcq, heq, ?_, hl2⟩
          intro q' hq' hcq'
          rcases List.mem_cons.mp hq' with h | h
          · subst h
            exact lt_of_lt_of_le hlt (le_of_not_lt hs)
          · exact hl1 q' h hcq'
    · -- the head is not a valid candidate: skipped
      have hb1 : considerSpot g sl sw required b p = b := by
        simp [considerSpot, hv]
      obtain ⟨ih1, ih2, ih3, ih4⟩ := ih b
      rw [foldBest_cons, hb1]
      refine ⟨ih1, ?_, ?_, ?_⟩
      · intro q hq hcq
        rcases List.mem_cons.mp hq with h | h
        · subst h; exact absurd hcq hv
        · exact ih2 q h hcq
      · rcases ih3 with h | ⟨q, hq, hrest⟩
        · exact Or.inl h
        · exact Or.inr ⟨q, List.mem_cons_of_mem p hq, hrest⟩
      · intro hlt
        obtain ⟨l1, q, l2, hdec, hcq, heq, hl1, hl2⟩ := ih4 hlt
        refine ⟨p :: l1, q, l2, by simp [hdec], hcq, heq, ?_, hl2⟩
        intro q' hq' hcq'
        rcases List.mem_cons.mp hq' with h | h
        · subst h; exact absurd hcq' hv
        · exact hl1 q' h hcq'

/-! ### Row-major order of the scan -/

/-- Strict row-major order on positions. -/
def rowMajorLT (p q : Nat × Nat) : Prop :=
  p.1 < q.1 ∨ (p.1 = q.1 ∧ p.2 < q.2)

lemma scanPositions_pairwise (sl sw : Nat) :
    (scanPositions sl sw).Pairwise rowMajorLT := by
  unfold scanPositions
  apply List.pairwise_flatMap.mpr
  refine ⟨?_, ?_⟩
  · intro r _
    refine List.Pairwise.map _ ?_ (List.pairwise_lt_range _)
    intro a b hab
    exact Or.inr ⟨rfl, hab⟩
  · refine List.Pairwise.imp_of_mem ?_ (List.pairwise_lt_range _)
    intro a b ha hb hab p hp q hq
    simp only [List.mem_map] at hp hq
    obtain ⟨ca, -, rfl⟩ := hp
    obtain ⟨cb, -, rfl⟩ := hq
    exact Or.inl hab

lemma scanPositions_decomp_lt (sl sw : Nat) (l1 l2 : List (Nat × Nat))
    (p : Nat × Nat) (h : scanPositions sl sw = l1 ++ p :: l2) :
    ∀ q ∈ l2, rowMajorLT p q := by
  have hp := scanPositions_pairwise sl sw
  rw [h] at hp
  have := (List.pairwise_append.mp hp).2.1
  exact (List.pairwise_cons.mp this).1

/-! ### Characterization of the quay-distance scans -/

lemma leftScan_isLeftQuayDist (g : Grid) (r j : Nat) :
    ∀ l ≤ j, (∀ m, l < m → m ≤ j → g r m ≠ -2) →
      IsLeftQuayDist g r j (leftScan g r j l) := by
  intro l
  induction l with
  | zero =>
    intro _ habove
    by_cases h0 : g r 0 = -2
    · rw [leftScan, if_pos (by simpa using h0)]
      refine Or.inl ⟨le_refl j, by simpa using h0, ?_⟩
      intro k hk
      exact habove (j - k) (by omega) (by omega)
    · rw [leftScan, if_neg (by simpa using h0)]
      refine Or.inr ⟨rfl, ?_⟩
      intro k hk
      by_cases hkj : k = j
      · subst hkj; simpa using h0
      · exact habove (j - k) (by omega) (by omega)
  | succ l ihl =>
    intro hle habove
    by_cases hq : g r (l + 1) = -2
    · rw [leftScan, if_pos (by simpa using hq)]
      refine Or.inl ⟨by omega, ?_, ?_⟩
      · have : j - (j - (l + 1)) = l + 1 := by omega
        rw [this]; exact hq
      · intro k hk
        exact habove (j - k) (by omega) (by omega)
    · rw [leftScan, if_neg (by simpa using hq)]
      refine ihl (by omega) ?_
      intro m hm1 hm2
      by_cases hml : m = l + 1
      · subst hml; exact hq
      · exact habove m (by omega) hm2

lemma leftDist_isLeftQuayDist (g : Grid) (r j : Nat) :
    IsLeftQuayDist g r j (leftDist g r j) := by
  unfold leftDist
  exact leftScan_isLeftQuayDist g r j j (le_refl j) (fun m hm1 hm2 => by omega)

lemma rightScanF_isRightQuayDist (g : Grid) (r j : Nat) :
    ∀ f right, j ≤ right → PORT_COLS ≤ right + f →
      (∀ m, j ≤ m → m < right → g r m ≠ -2) →
      IsRightQuayDist g r j (rightScanF g r j right f) := by
  intro f
  induction f with
  | zero =>
    intro right h1 h2 hbelow
    rw [rightScanF]
    refine Or.inr ⟨rfl, ?_⟩
    intro k hk
    exact hbelow (j + k) (by omega) (by omega)
  | succ f ihf =>
    intro right h1 h2 hbelow
    by_cases hin : right < PORT_COLS
    · by_cases hq : g r right = -2
      · rw [rightScanF, if_pos hin, if_pos (by simpa using hq)]
        refine Or.inl ⟨by omega, ?_, ?_⟩
        · have : j + (right - j) = right := by omega
          rw [this]; exact hq
        · intro k hk
          exact hbelow (j + k) (by omega) (by omega)
      · rw [rightScanF, if_pos hin, if_neg (by simpa using hq)]
        refine ihf (right + 1) (by omega) (by omega) ?_
        intro m hm1 hm2
        by_cases hmr : m = right
        · subst hmr; exact hq
        · exact hbelow m hm1 (by omega)
    · rw [rightScanF, if_neg hin]
      refine Or.inr ⟨rfl, ?_⟩
      intro k hk
      exact hbelow (j + k) (by omega) (by omega)

lemma rightDist_isRightQuayDist (g : Grid) (r j : Nat) :
    IsRightQuayDist g r j (rightDist g r j) := by
  unfold rightDist
  exact rightScanF_isRightQuayDist g r j PORT_COLS j (le_refl j) (by omega)
    (fun m hm1 hm2 => by omega)

lemma isLeftQuayDist_unique (g : Grid) (r j d1 d2 : Nat)
    (h1 : IsLeftQuayDist g r j d1) (h2 : IsLeftQuayDist g r j d2) : d1 = d2 := by
  rcases h1 with ⟨hle1, hq1, hmin1⟩ | ⟨he1, hall1⟩
  · rcases h2 with ⟨hle2, hq2, hmin2⟩ | ⟨he2, hall2⟩
    · by_contra hne
      rcases Nat.lt_or_ge d1 d2 with h | h
      · exact hmin2 d1 h hq1
      · exact hmin1 d2 (by omega) hq2
    · exact absurd hq1 (hall2 d1 hle1)
  · rcases h2 with ⟨hle2, hq2, hmin2⟩ | ⟨he2, hall2⟩
    · exact absurd hq2 (hall1 d2 hle2)
    · omega

lemma isRightQuayDist_unique (g : Grid) (r j d1 d2 : Nat)
    (h1 : IsRightQuayDist g r j d1) (h2 : IsRightQuayDist g r j d2) : d1 = d2 := by
  rcases h1 with ⟨hlt1, hq1, hmin1⟩ | ⟨he1, hall1⟩
  · rcases h2 with ⟨hlt2, hq2, hmin2⟩ | ⟨he2, hall2⟩
    · by_contra hne
      rcases Nat.lt_or_ge d1 d2 with h | h
      · exact hmin2 d1 h hq1
      · exact hmin1 d2 (by omega) hq2
    · exact absurd hq1 (hall2 d1 hlt1)
  · rcases h2 with ⟨hlt2, hq2, hmin2⟩ | ⟨he2, hall2⟩
    · exact absurd hq2 (hall1 d2 hlt2)
    · omega

/-! ### Elementary facts about the min-fold and the score -/

lemma foldl_min_le_init (f : Nat → Nat) :
    ∀ (l : List Nat) (b : Nat), l.foldl (fun m x => min m (f x)) b ≤ b := by
  intro l
  induction l with
  | nil => intro b; exact le_refl b
  | cons h t iht =>
    intro b
    exact le_trans (iht (min b (f h))) (min_le_left _ _)

lemma foldl_min_le_mem (f : Nat → Nat) :
    ∀ (l : List Nat) (b : Nat) (j : Nat), j ∈ l →
      l.foldl (fun m x => min m (f x)) b ≤ f j := by
  intro l
  induction l with
  | nil => intro b j hj; simp at hj
  | cons h t iht =>
    intro b j hj
    rcases List.mem_cons.mp hj with hc | hc
    · subst hc
      exact le_trans (foldl_min_le_init f t (min b (f j))) (min_le_right _ _)
    · exact iht (min b (f h)) j hc

lemma foldl_min_congr (f1 f2 : Nat → Nat) :
    ∀ (l : List Nat) (b : Nat), (∀ j ∈ l, f1 j = f2 j) →
      l.foldl (fun m x => min m (f1 x)) b = l.foldl (fun m x => min m (f2 x)) b := by
  intro l
  induction l with
  | nil => intro b _; rfl
  | cons h t iht =>
    intro b hagree
    simp only [List.foldl_cons]
    rw [hagree h (List.mem_cons_self h t)]
    exact iht _ (fun j hj => hagree j (List.mem_cons_of_mem h hj))

lemma leftDist_le_of_quay_col0 (g : Grid) (r : Nat) (hq : g r 0 = -2) (j : Nat) :
    leftDist g r j ≤ j := by
  unfold leftDist
  have haux : ∀ l, leftScan g r j l ≤ j := by
    intro l
    induction l with
    | zero =>
      rw [leftScan, if_pos (by simpa using hq)]
    | succ l ihl =>
      by_cases hql : g r (l + 1) = -2
      · rw [leftScan, if_pos (by simpa using hql)]
        omega
      · rw [leftScan, if_neg (by simpa using hql)]
        exact ihl
  exact haux j

/-- On a grid whose column 0 is a quay in the relevant row, every valid
candidate's score is strictly below the sentinel. -/
lemma candScore_lt_sentinel (g : Grid) (sl sw : Nat) (required : Int)
    (hsw : 0 < sw) (p : Nat × Nat)
    (hq : g p.1 0 = -2) (hp : Cand g sl sw required p) :
    candScore g p.1 p.2 sw < PORT_COLS * SLOT_SIZE := by
  have h0 : (0 : Nat) ∈ List.range sw := List.mem_range.mpr hsw
  have hle : candScore g p.1 p.2 sw ≤ colDist g p.1 (p.2 + 0) :=
    foldl_min_le_mem (fun j => colDist g p.1 (p.2 + j)) (List.range sw) _ 0 h0
  have hcol : colDist g p.1 (p.2 + 0) ≤ p.2 := by
    have := leftDist_le_of_quay_col0 g p.1 hq (p.2 + 0)
    unfold colDist
    omega
  have hbound : p.2 < PORT_COLS := by
    obtain ⟨-, h2, -⟩ := hp
    omega
  calc candScore g p.1 p.2 sw ≤ p.2 := le_trans hle hcol
    _ < PORT_COLS := hbound
    _ ≤ PORT_COLS * SLOT_SIZE := by unfold PORT_COLS SLOT_SIZE; omega

/-! ### Packaged facts about `find_best_docking_spot` -/

/-- The search result is either the failure sentinel or a valid
in-range candidate evaluated at its own score. -/
lemma find_best_cases (g : Grid) (sl sw : Nat) (required : Int) :
    find_best_docking_spot g sl sw required = ⟨-1, -1, PORT_COLS * SLOT_SIZE⟩ ∨
    ∃ p ∈ scanPositions sl sw,
      can_dock_here g p.1 p.2 sl sw required = true ∧
      find_best_docking_spot g sl sw required =
        ⟨(p.1 : Int), (p.2 : Int), candScore g p.1 p.2 sw⟩ := by
  obtain ⟨-, -, h3, -⟩ := foldBest_spec g sl sw required (scanPositions sl sw)
    ⟨-1, -1, PORT_COLS * SLOT_SIZE⟩
  rw [find_best_eq_foldBest]
  rcases h3 with h | ⟨p, hp, hc, heq, -⟩
  · exact Or.inl h
  · exact Or.inr ⟨p, hp, hc, heq⟩

/-- When no valid candidate exists, the search returns the failure
sentinel. -/
lemma find_best_fail (g : Grid) (sl sw : Nat) (required : Int)
    (hsl : 0 < sl) (hsw : 0 < sw)
    (hno : ∀ p, ¬ Cand g sl sw required p) :
    find_best_docking_spot g sl sw required = ⟨-1, -1, PORT_COLS * SLOT_SIZE⟩ := by
  rcases find_best_cases g sl sw required with h | ⟨p, -, hc, -⟩
  · exact h
  · exact absurd ((cand_iff_can_dock g sl sw required hsl hsw p.1 p.2).mpr hc)
      (hno p)

/-- When a valid candidate exists and column 0 of its row is a quay (as
holds in every reachable grid), the search returns a valid candidate of
globally minimal score, and among minimal-score candidates the first in
row-major order. -/
lemma find_best_found (g : Grid) (sl sw : Nat) (required : Int)
    (hq : ∀ r, r < PORT_ROWS → g r 0 = -2) (hsl : 0 < sl) (hsw : 0 < sw)
    (p0 : Nat × Nat) (hp0 : Cand g sl sw required p0) :
    ∃ p, Cand g sl sw required p ∧
      find_best_docking_spot g sl sw required =
        ⟨(p.1 : Int), (p.2 : Int), candScore g p.1 p.2 sw⟩ ∧
      (∀ q, Cand g sl sw required q →
        candScore g p.1 p.2 sw ≤ candScore g q.1 q.2 sw) ∧
      (∀ q, Cand g sl sw required q →
        candScore g q.1 q.2 sw = candScore g p.1 p.2 sw →
        p.1 < q.1 ∨ (p.1 = q.1 ∧ p.2 ≤ q.2)) := by
  obtain ⟨-, h2, -, h4⟩ := foldBest_spec g sl sw required (scanPositions sl sw)
    ⟨-1, -1, PORT_COLS * SLOT_SIZE⟩
  have hrow0 : g p0.1 0 = -2 := by
    refine hq p0.1 ?_
    obtain ⟨h1, -, -⟩ := hp0
    omega
  have hlt : (foldBest g sl sw required (scanPositions sl sw)
      ⟨-1, -1, PORT_COLS * SLOT_SIZE⟩).dist < PORT_COLS * SLOT_SIZE := by
    have hle := h2 p0 (cand_mem_scanPositions g sl sw required p0 hp0)
      ((cand_iff_can_dock g sl sw required hsl hsw p0.1 p0.2).mp hp0)
    exact lt_of_le_of_lt hle
      (candScore_lt_sentinel g sl sw required hsw p0 hrow0 hp0)
  obtain ⟨l1, p, l2, hdec, hcp, heq, hl1, hl2⟩ := h4 hlt
  have hpcand : Cand g sl sw required p := by
    have hpmem : p ∈ scanPositions sl sw := by
      rw [hdec]
      exact List.mem_append.mpr (Or.inr (List.mem_cons_self p l2))
    exact (cand_iff_can_dock g sl sw required hsl hsw p.1 p.2).mpr hcp
  have hdist : (foldBest g sl sw required (scanPositions sl sw)
      ⟨-1, -1, PORT_COLS * SLOT_SIZE⟩).dist = candScore g p.1 p.2 sw := by
    rw [heq]
  refine ⟨p, hpcand, by rw [find_best_eq_foldBest, heq], ?_, ?_⟩
  · intro q hqc
    have hmem := cand_mem_scanPositions g sl sw required q hqc
    have hcq := (cand_iff_can_dock g sl sw required hsl hsw q.1 q.2).mp hqc
    have := h2 q hmem hcq
    omega
  · intro q hqc hscore
    have hmem := cand_mem_scanPositions g sl sw required q hqc
    have hcq := (cand_iff_can_dock g sl sw required hsl hsw q.1 q.2).mp hqc
    rw [hdec] at hmem
    rcases List.mem_append.mp hmem with hin1 | hin2
    · have := hl1 q hin1 hcq
      omega
    · rcases List.mem_cons.mp hin2 with hqp | hin2
      · subst hqp
        exact Or.inr ⟨rfl, le_refl _⟩
      · have := scanPositions_decomp_lt sl sw l1 l2 p hdec q hin2
        rcases this with h | ⟨h1, h2'⟩
        · exact Or.inl h
        · exact Or.inr ⟨h1, le_of_lt h2'⟩

/-! ### From a docked decision to a valid claim -/

/-- A successful allocation decision always comes from a search that
found a valid candidate: the claimed block lies in bounds and every one
of its cells holds the searched class (`-3` for a fuel placement, `-1`
otherwise). -/
lemma assign_docked_can_dock (g : Grid) (y : YachtS) (r c : Nat) (onFuel : Bool)
    (h : assign_decision g y = AssignResult.docked r c onFuel) :
    can_dock_here g r c (slotsFor y.length) (slotsFor y.width)
      (if onFuel = true then (-3 : Int) else -1) = true := by
  simp only [assign_decision] at h
  by_cases hoil : y.oil_level < 50
  · rw [if_pos hoil] at h
    rcases find_best_cases g (slotsFor y.length) (slotsFor y.width) (-3) with
      hf | ⟨p, -, hc, heq⟩
    · rw [hf] at h
      simp at h
    · rw [heq] at h
      have hcond : ((p.1 : Int) ≠ -1 ∧ (p.2 : Int) ≠ -1) := ⟨by omega, by omega⟩
      rw [if_pos hcond] at h
      injection h with h1 h2 h3
      simp only [Int.toNat_natCast] at h1 h2
      subst h1; subst h2; subst h3
      simpa using hc
  · rw [if_neg hoil] at h
    rcases find_best_cases g (slotsFor y.length) (slotsFor y.width) (-1) with
      hf | ⟨p, -, hc, heq⟩
    · rw [hf] at h
      rw [if_neg (by simp)] at h
      by_cases hw : 15 ≤ y.waiting_time
      · rw [if_pos hw] at h
        rcases find_best_cases g (slotsFor y.length) (slotsFor y.width) (-3) with
          hf2 | ⟨p2, -, hc2, heq2⟩
        · rw [hf2] at h
          simp at h
        · rw [heq2] at h
          have hcond : ((p2.1 : Int) ≠ -1 ∧ (p2.2 : Int) ≠ -1) := ⟨by omega, by omega⟩
          rw [if_pos hcond] at h
          injection h with h1 h2 h3
          simp only [Int.toNat_natCast] at h1 h2
          subst h1; subst h2; subst h3
          simpa using hc2
      · rw [if_neg hw] at h
        simp at h
    · rw [heq] at h
      have hcond : ((p.1 : Int) ≠ -1 ∧ (p.2 : Int) ≠ -1) := ⟨by omega, by omega⟩
      rw [if_pos hcond] at h
      injection h with h1 h2 h3
      simp only [Int.toNat_natCast] at h1 h2
      subst h1; subst h2; subst h3
      simpa using hc

/-! ### The protocol invariant -/

lemma find?_eq_some_of_unique {α : Type} (p : α → Bool) :
    ∀ (l : List α) (a : α), a ∈ l → p a = true →
      (∀ b ∈ l, p b = true → b = a) → l.find? p = some a := by
  intro l
  induction l with
  | nil => intro a ha _ _; simp at ha
  | cons h t iht =>
    intro a ha hpa huniq
    by_cases hph : p h = true
    · rw [List.find?_cons_of_pos _ hph]
      rw [huniq h (List.mem_cons_self h t) hph]
    · rw [List.find?_cons_of_neg _ (by simpa using hph)]
      have hat : a ∈ t := by
        rcases List.mem_cons.mp ha with hc | hc
        · subst hc; exact absurd hpa hph
        · exact hc
      exact iht a hat hpa (fun b hb hpb => huniq b (List.mem_cons_of_mem h hb) hpb)

/-- The inductive invariant of the claim/release protocol: active ids
are distinct and positive, every active block lies in bounds on
non-quay columns, its cells carry its owner's id, and every cell not
covered by an active block still carries the class the initialization
gave it. -/
structure SimInv (s : SimState) : Prop where
  uniq : s.active.Pairwise (fun a b => a.y.id ≠ b.y.id)
  posid : ∀ e ∈ s.active, 1 ≤ e.y.id
  shape : ∀ e ∈ s.active,
    0 < slotsFor e.y.length ∧ 0 < slotsFor e.y.width ∧
    e.r + slotsFor e.y.length ≤ PORT_ROWS ∧ e.c + slotsFor e.y.width ≤ PORT_COLS
  nonquay : ∀ e ∈ s.active, ∀ c', e.c ≤ c' → c' < e.c + slotsFor e.y.width →
    initClass c' ≠ -2
  cov : ∀ e ∈ s.active, ∀ r' c', covered e r' c' → s.grid r' c' = e.y.id
  unc : ∀ r' c', r' < PORT_ROWS → c' < PORT_COLS →
    (∀ e ∈ s.active, ¬ covered e r' c') → s.grid r' c' = initClass c'

lemma inv_id_inj {s : SimState} (hInv : SimInv s) :
    ∀ e1 ∈ s.active, ∀ e2 ∈ s.active, e1.y.id = e2.y.id → e1 = e2 := by
  intro e1 h1 e2 h2 hid
  by_contra hne
  exact hInv.uniq.forall (by intro a b hab heq; exact hab heq.symm) h1 h2 hne hid

lemma inv_init : SimInv ⟨initGrid, []⟩ := by
  refine ⟨List.Pairwise.nil, by simp, by simp, by simp, by simp, ?_⟩
  intro r' c' _ _ _
  rfl

/-- A successful allocation step preserves the invariant. -/
lemma inv_assign {s : SimState} (hInv : SimInv s) (y : YachtS) (r c : Nat)
    (onFuel : Bool) (hid : 1 ≤ y.id) (hl : 0 < y.length) (hw : 0 < y.width)
    (hfresh : ∀ e ∈ s.active, e.y.id ≠ y.id)
    (hdec : assign_decision s.grid y = AssignResult.docked r c onFuel) :
    SimInv ⟨claimBlock s.grid y.id r c (slotsFor y.length) (slotsFor y.width),
      ⟨y, r, c⟩ :: s.active⟩ := by
  have hsl : 0 < slotsFor y.length := slotsFor_pos hl
  have hsw : 0 < slotsFor y.width := slotsFor_pos hw
  obtain ⟨req, hreq_neg, hreq_ne2, hcd⟩ :
      ∃ req : Int, req < 0 ∧ req ≠ -2 ∧
        can_dock_here s.grid r c (slotsFor y.length) (slotsFor y.width) req = true :=
    ⟨if onFuel = true then -3 else -1, by cases onFuel <;> norm_num,
      by cases onFuel <;> norm_num, assign_docked_can_dock s.grid y r c onFuel hdec⟩
  have hcells := (can_dock_here_eq_true_iff s.grid r c _ _ req).mp hcd
  have hnotcov : ∀ r' c', r ≤ r' → r' < r + slotsFor y.length →
      c ≤ c' → c' < c + slotsFor y.width →
      ∀ e ∈ s.active, ¬ covered e r' c' := by
    intro r' c' h1 h2 h3 h4 e he hecov
    have hval := hInv.cov e he r' c' hecov
    have hcell := hcells (r' - r) (by omega) (c' - c) (by omega)
    have hr' : r + (r' - r) = r' := by omega
    have hc' : c + (c' - c) = c' := by omega
    rw [hr', hc'] at hcell
    have hpos := hInv.posid e he
    have h5 := hcell.2.2
    rw [hval] at h5
    omega
  refine ⟨?_, ?_, ?_, ?_, ?_, ?_⟩
  · exact List.pairwise_cons.mpr
      ⟨fun e he heq => hfresh e he heq.symm, hInv.uniq⟩
  · intro e he
    rcases List.mem_cons.mp he with hc | hc
    · subst hc; exact hid
    · exact hInv.posid e hc
  · intro e he
    rcases List.mem_cons.mp he with hc | hc
    · subst hc
      refine ⟨hsl, hsw, ?_, ?_⟩
      · show r + slotsFor y.length ≤ PORT_ROWS
        have := (hcells (slotsFor y.length - 1) (by omega) 0 (by omega)).1
        omega
      · show c + slotsFor y.width ≤ PORT_COLS
        have := (hcells 0 (by omega) (slotsFor y.width - 1) (by omega)).2.1
        omega
    · exact hInv.shape e hc
  · intro e he c' h1 h2
    rcases List.mem_cons.mp he with hc | hc
    · subst hc
      have h1' : c ≤ c' := h1
      have h2' : c' < c + slotsFor y.width := h2
      have hcell := hcells 0 (by omega) (c' - c) (by omega)
      have hceq : c + (c' - c) = c' := by omega
      rw [hceq, Nat.add_zero] at hcell
      have huncov : ∀ e' ∈ s.active, ¬ covered e' r c' :=
        fun e' he' => hnotcov r c' (by omega) (by omega) h1' h2' e' he'
      have hi := hInv.unc r c' hcell.1 hcell.2.1 huncov
      intro hquay
      rw [hquay] at hi
      have := hcell.2.2
      rw [hi] at this
      exact hreq_ne2 this.symm
    · exact hInv.nonquay e hc c' h1 h2
  · intro e he r' c' hecov
    rcases List.mem_cons.mp he with hc | hc
    · subst hc
      obtain ⟨ha, hb2, hc3, hd4⟩ := hecov
      show claimBlock s.grid y.id r c _ _ r' c' = y.id
      simp only [claimBlock]
      rw [if_pos ⟨ha, hb2, hc3, hd4⟩]
    · have hnc : ¬ (r ≤ r' ∧ r' < r + slotsFor y.length ∧
          c ≤ c' ∧ c' < c + slotsFor y.width) := by
        rintro ⟨ha, hb2, hc3, hd4⟩
        exact hnotcov r' c' ha hb2 hc3 hd4 e hc hecov
      show claimBlock s.grid y.id r c _ _ r' c' = e.y.id
      simp only [claimBlock]
      rw [if_neg hnc]
      exact hInv.cov e hc r' c' hecov
  · intro r' c' hr25 hc25 hucall
    have hune0 : ¬ covered ⟨y, r, c⟩ r' c' :=
      hucall ⟨y, r, c⟩ (List.mem_cons_self _ _)
    show claimBlock s.grid y.id r c _ _ r' c' = initClass c'
    simp only [claimBlock]
    rw [if_neg (show ¬ (r ≤ r' ∧ r' < r + slotsFor y.length ∧
      c ≤ c' ∧ c' < c + slotsFor y.width) from fun hcond => hune0 hcond)]
    exact hInv.unc r' c' hr25 hc25
      (fun e he => hucall e (List.mem_cons_of_mem _ he))

/-- A release step preserves the invariant: under the invariant the
block scan of `release_slot` finds exactly the releasing yacht's block,
and restoring it by the recomputed zone class returns those cells to
their initialization class. -/
lemma inv_free {s : SimState} (hInv : SimInv s) (l1 l2 : List Entry) (e : Entry)
    (hact : s.active = l1 ++ e :: l2) :
    SimInv ⟨release_slot s.grid e.y.id (slotsFor e.y.length) (slotsFor e.y.width),
      l1 ++ l2⟩ := by
  have he : e ∈ s.active := by
    rw [hact]
    exact List.mem_append.mpr (Or.inr (List.mem_cons_self e l2))
  obtain ⟨hsl, hsw, hrb, hcb⟩ := hInv.shape e he
  have hmem : ∀ e' ∈ l1 ++ l2, e' ∈ s.active := by
    intro e' h
    rw [hact]
    rcases List.mem_append.mp h with h | h
    · exact List.mem_append.mpr (Or.inl h)
    · exact List.mem_append.mpr (Or.inr (List.mem_cons_of_mem e h))
  have hpw : (l1 ++ e :: l2).Pairwise (fun a b => a.y.id ≠ b.y.id) := by
    rw [← hact]
    exact hInv.uniq
  have hdiff : ∀ e' ∈ l1 ++ l2, e'.y.id ≠ e.y.id := by
    intro e' h
    rcases List.mem_append.mp h with h | h
    · exact (List.pairwise_append.mp hpw).2.2 e' h e (List.mem_cons_self e l2)
    · intro heq
      exact ((List.pairwise_cons.mp (List.pairwise_append.mp hpw).2.1).1 e' h) heq.symm
  have hblockcells : ∀ i < slotsFor e.y.length, ∀ j < slotsFor e.y.width,
      s.grid (e.r + i) (e.c + j) = e.y.id := by
    intro i hi j hj
    exact hInv.cov e he (e.r + i) (e.c + j) ⟨by omega, by omega, by omega, by omega⟩
  have hblock :
      blockAll s.grid e.y.id e.r e.c (slotsFor e.y.length) (slotsFor e.y.width) = true :=
    (blockAll_eq_true_iff _ _ _ _ _ _).mpr hblockcells
  have hidcov : ∀ r' c', r' < PORT_ROWS → c' < PORT_COLS →
      s.grid r' c' = e.y.id → covered e r' c' := by
    intro r' c' h20 h25 hv
    by_contra hnc
    by_cases hcovany : ∀ e' ∈ s.active, ¬ covered e' r' c'
    · have hu := hInv.unc r' c' h20 h25 hcovany
      rw [hu] at hv
      have hneg := initClass_neg c'
      have hpos := hInv.posid e he
      omega
    · push_neg at hcovany
      obtain ⟨e', he', hcp⟩ := hcovany
      have h1 := hInv.cov e' he' r' c' hcp
      rw [h1] at hv
      have := inv_id_inj hInv e' he' e he hv
      subst this
      exact hnc hcp
  have hfind : (scanPositions (slotsFor e.y.length) (slotsFor e.y.width)).find?
      (fun p => blockAll s.grid e.y.id p.1 p.2
        (slotsFor e.y.length) (slotsFor e.y.width)) = some (e.r, e.c) := by
    apply find?_eq_some_of_unique
    · rw [mem_scanPositions]
      constructor <;> simp <;> omega
    · exact hblock
    · rintro ⟨p1, p2⟩ hp hpb
      have hcells := (blockAll_eq_true_iff _ _ _ _ _ _).mp hpb
      rw [mem_scanPositions] at hp
      simp only [] at hp hcells
      have hcov00 := hidcov p1 p2 (by omega) (by omega)
        (by have := hcells 0 hsl 0 hsw; simpa using this)
      have hcovr := hidcov (p1 + (slotsFor e.y.length - 1)) p2 (by omega) (by omega)
        (by have := hcells (slotsFor e.y.length - 1) (by omega) 0 hsw
            simpa using this)
      have hcovc := hidcov p1 (p2 + (slotsFor e.y.width - 1)) (by omega) (by omega)
        (by have := hcells 0 hsl (slotsFor e.y.width - 1) (by omega)
            simpa using this)
      obtain ⟨ha1, -, ha3, -⟩ := hcov00
      obtain ⟨hb1, hb2, -, -⟩ := hcovr
      obtain ⟨-, -, hc3, hc4⟩ := hcovc
      have hpr : p1 = e.r := by omega
      have hpc : p2 = e.c := by omega
      rw [hpr, hpc]
  have hrel : release_slot s.grid e.y.id (slotsFor e.y.length) (slotsFor e.y.width) =
      restoreBlock s.grid e.r e.c (slotsFor e.y.length) (slotsFor e.y.width) := by
    unfold release_slot
    rw [hfind]
  have hdisj : ∀ e' ∈ l1 ++ l2, ∀ r' c', covered e' r' c' → ¬ covered e r' c' := by
    intro e' h r' c' hcp hce
    have h1 := hInv.cov e' (hmem e' h) r' c' hcp
    have h2 := hInv.cov e he r' c' hce
    rw [h1] at h2
    exact hdiff e' h h2
  refine ⟨?_, ?_, ?_, ?_, ?_, ?_⟩
  · exact List.Pairwise.sublist
      (List.Sublist.append_left (List.sublist_cons_self e l2) l1) hpw
  · intro e' h
    exact hInv.posid e' (hmem e' h)
  · intro e' h
    exact hInv.shape e' (hmem e' h)
  · intro e' h c' h1 h2
    exact hInv.nonquay e' (hmem e' h) c' h1 h2
  · intro e' h r' c' hcp
    show release_slot s.grid e.y.id _ _ r' c' = e'.y.id
    rw [hrel]
    simp only [restoreBlock]
    rw [if_neg (show ¬ (e.r ≤ r' ∧ r' < e.r + slotsFor e.y.length ∧
        e.c ≤ c' ∧ c' < e.c + slotsFor e.y.width) from
      fun hcond => hdisj e' h r' c' hcp hcond)]
    exact hInv.cov e' (hmem e' h) r' c' hcp
  · intro r' c' h20 h25 hu
    show release_slot s.grid e.y.id _ _ r' c' = initClass c'
    rw [hrel]
    simp only [restoreBlock]
    by_cases hce : covered e r' c'
    · rw [if_pos (show e.r ≤ r' ∧ r' < e.r + slotsFor e.y.length ∧
          e.c ≤ c' ∧ c' < e.c + slotsFor e.y.width from hce)]
      exact releaseClass_eq_initClass c' h25
        (hInv.nonquay e he c' hce.2.2.1 hce.2.2.2)
    · rw [if_neg (show ¬ (e.r ≤ r' ∧ r' < e.r + slotsFor e.y.length ∧
          e.c ≤ c' ∧ c' < e.c + slotsFor e.y.width) from hce)]
      refine hInv.unc r' c' h20 h25 ?_
      intro e'' he''
      rw [hact] at he''
      rcases List.mem_append.mp he'' with h | h
      · exact hu e'' (List.mem_append.mpr (Or.inl h))
      · rcases List.mem_cons.mp h with hc | hc
        · subst hc; exact hce
        · exact hu e'' (List.mem_append.mpr (Or.inr hc))

/-- Every reachable state satisfies the invariant. -/
lemma inv_of_reachable {s : SimState} (h : Reachable s) : SimInv s := by
  induction h with
  | init => exact inv_init
  | step hr hs ih =>
    cases hs with
    | assign y r c onFuel hid hl hw hfresh hdec =>
      exact inv_assign ih y r c onFuel hid hl hw hfresh hdec
    | free l1 l2 e hact =>
      exact inv_free ih l1 l2 e hact

/-- Column 0 is a quay in every row of every reachable grid: it is so
after initialization, never claimable (claims need class `-1` or `-3`),
and never altered by a release. -/
lemma reachable_quay_col0 {s : SimState} (h : Reachable s) :
    ∀ r, r < PORT_ROWS → s.grid r 0 = -2 := by
  intro r hr
  have hInv := inv_of_reachable h
  have huncov : ∀ e ∈ s.active, ¬ covered e r 0 := by
    intro e he hc
    exact hInv.nonquay e he 0 hc.2.2.1 hc.2.2.2 initClass_zero
  rw [hInv.unc r 0 hr (by decide) huncov]
  exact initClass_zero

/-- Under the invariant, a cell holding an active id is covered by that
entry's block. -/
lemma inv_idcov {s : SimState} (hInv : SimInv s) (e : Entry) (he : e ∈ s.active) :
    ∀ r' c', r' < PORT_ROWS → c' < PORT_COLS →
      s.grid r' c' = e.y.id → covered e r' c' := by
  intro r' c' h20 h25 hv
  by_contra hnc
  by_cases hcovany : ∀ e' ∈ s.active, ¬ covered e' r' c'
  · have hu := hInv.unc r' c' h20 h25 hcovany
    rw [hu] at hv
    have hneg := initClass_neg c'
    have hpos := hInv.posid e he
    omega
  · push_neg at hcovany
    obtain ⟨e', he', hcp⟩ := hcovany
    have h1 := hInv.cov e' he' r' c' hcp
    rw [h1] at hv
    have := inv_id_inj hInv e' he' e he hv
    subst this
    exact hnc hcp

/-- Under the invariant, the cells holding an active id are exactly the
entry's block. -/
lemma inv_block_iff {s : SimState} (hInv : SimInv s) (e : Entry) (he : e ∈ s.active) :
    ∀ r' c', r' < PORT_ROWS → c' < PORT_COLS →
      (s.grid r' c' = e.y.id ↔ covered e r' c') := by
  intro r' c' h20 h25
  constructor
  · exact inv_idcov hInv e he r' c' h20 h25
  · exact hInv.cov e he r' c'

/-- The refuel loop runs the oil level exactly up to 100, counting one
increment per missing percent. -/
lemma refuelSteps_reaches :
    ∀ (f : Nat) (oil : Int), oil ≤ 100 → (100 - oil).toNat ≤ f →
      refuelSteps oil f = (100, (100 - oil).toNat) := by
  intro f
  induction f with
  | zero =>
    intro oil h1 h2
    have h3 : oil = 100 := by omega
    subst h3
    simp [refuelSteps]
  | succ f ihf =>
    intro oil h1 h2
    by_cases hlt : oil < 100
    · rw [refuelSteps, if_pos hlt, ihf (oil + 1) (by omega) (by omega)]
      have hx : (100 - oil).toNat = (100 - (oil + 1)).toNat + 1 := by omega
      rw [hx]
    · have h3 : oil = 100 := by omega
      subst h3
      rw [refuelSteps, if_neg (by omega)]
      simp

lemma refuelLoop_reaches (oil : Int) (h0 : 0 ≤ oil) (h1 : oil ≤ 100) :
    refuelLoop oil = (100, (100 - oil).toNat) :=
  refuelSteps_reaches 200 oil h1 (by omega)

/-! ### Claim C1: release restores the partitioner's classes -/

/-- Claim C1, as a predicate on a release call: quay, oil-pump and free
cells are never altered; every cell of the released block is restored to
`releaseClass` of its column, which is the recomputed
most-recently-passed-quay rule; and on every in-range non-quay column
the recomputed class coincides with the class assigned at
initialization (so a fuel-dock cell is never released as free or the
reverse). -/
def ReleaseRestoresOK (g : Grid) (id : Int) (sl sw : Nat) : Prop :=
  (∀ r' c', g r' c' = -2 → release_slot g id sl sw r' c' = -2) ∧
  (∀ r' c', g r' c' = -3 → release_slot g id sl sw r' c' = -3) ∧
  (∀ r' c', g r' c' = -1 → release_slot g id sl sw r' c' = -1) ∧
  (∀ r c, (scanPositions sl sw).find?
      (fun p => blockAll g id p.1 p.2 sl sw) = some (r, c) →
    ∀ i < sl, ∀ j < sw,
      release_slot g id sl sw (r + i) (c + j) = releaseClass (c + j)) ∧
  (∀ c', releaseClass c' =
    (if last_quay_col c' > ((PORT_COLS / 2 : Nat) : Int) then -3 else -1)) ∧
  (∀ c', c' < PORT_COLS → initClass c' ≠ -2 → releaseClass c' = initClass c')

/-- C1: for every release of a region held by a (positive) task id,
every cell of the released block is restored to exactly the class the
zone partitioner assigns its column — fuel dock when the most recently
passed quay column strictly exceeds `floor(PORT_COLS / 2)`, free
otherwise — recomputed from scratch at release time; release never
turns a fuel-dock cell into a free cell or vice versa, and never
changes a quay cell. -/
theorem C1_release_restores_partition (g : Grid) (id : Int) (sl sw : Nat)
    (hid : 1 ≤ id) : ReleaseRestoresOK g id sl sw := by
  have hfixed : ∀ v : Int, v < 0 → ∀ r' c', g r' c' = v →
      release_slot g id sl sw r' c' = v := by
    intro v hv r' c' hcell
    unfold release_slot
    cases hfind : (scanPositions sl sw).find?
        (fun p => blockAll g id p.1 p.2 sl sw) with
    | none =>
      simp only []
      exact hcell
    | some rc =>
      obtain ⟨r0, c0⟩ := rc
      have hball := List.find?_some hfind
      simp only [] at hball
      have hcells := (blockAll_eq_true_iff _ _ _ _ _ _).mp hball
      simp only [restoreBlock]
      have hnotrect : ¬ (r0 ≤ r' ∧ r' < r0 + sl ∧ c0 ≤ c' ∧ c' < c0 + sw) := by
        rintro ⟨h1, h2, h3, h4⟩
        have hc := hcells (r' - r0) (by omega) (c' - c0) (by omega)
        rw [(by omega : r0 + (r' - r0) = r'), (by omega : c0 + (c' - c0) = c')] at hc
        rw [hcell] at hc
        omega
      rw [if_neg hnotrect]
      exact hcell
  refine ⟨fun r' c' h => hfixed (-2) (by norm_num) r' c' h,
    fun r' c' h => hfixed (-3) (by norm_num) r' c' h,
    fun r' c' h => hfixed (-1) (by norm_num) r' c' h, ?_,
    fun c' => rfl, releaseClass_eq_initClass⟩
  intro r c hfind i hi j hj
  unfold release_slot
  rw [hfind]
  simp only [restoreBlock]
  rw [if_pos (show r ≤ r + i ∧ r + i < r + sl ∧ c ≤ c + j ∧ c + j < c + sw by
    omega)]

/-! ### Claim C2: fuel/wait eligibility policy -/

/-- Claim C2, as a predicate on one allocation attempt: with oil below
50 only fuel-dock regions are claimed and the attempt fails when none
fits; otherwise a free region is tried first, a fuel-dock region only
when no free region fits and the wait is at least 15, and the attempt
fails otherwise; consequently a low-fuel task is never placed on free
cells, and a fuel-dock placement implies low fuel or a wait of at
least 15. -/
def AssignPolicyOK (g : Grid) (y : YachtS) : Prop :=
  (y.oil_level < 50 →
    ((∀ p, ¬ Cand g (slotsFor y.length) (slotsFor y.width) (-3) p) →
      assign_decision g y = AssignResult.noDock) ∧
    (∀ r c onFuel, assign_decision g y = AssignResult.docked r c onFuel →
      onFuel = true ∧ Cand g (slotsFor y.length) (slotsFor y.width) (-3) (r, c))) ∧
  (¬ y.oil_level < 50 →
    ((∃ p, Cand g (slotsFor y.length) (slotsFor y.width) (-1) p) →
      ∃ r c, assign_decision g y = AssignResult.docked r c false) ∧
    ((∀ p, ¬ Cand g (slotsFor y.length) (slotsFor y.width) (-1) p) →
      15 ≤ y.waiting_time →
      (∃ p, Cand g (slotsFor y.length) (slotsFor y.width) (-3) p) →
      ∃ r c, assign_decision g y = AssignResult.docked r c true) ∧
    ((∀ p, ¬ Cand g (slotsFor y.length) (slotsFor y.width) (-1) p) →
      y.waiting_time < 15 → assign_decision g y = AssignResult.noDock) ∧
    ((∀ p, ¬ Cand g (slotsFor y.length) (slotsFor y.width) (-1) p) →
      (∀ p, ¬ Cand g (slotsFor y.length) (slotsFor y.width) (-3) p) →
      assign_decision g y = AssignResult.noDock)) ∧
  (∀ r c, assign_decision g y = AssignResult.docked r c false →
    ¬ y.oil_level < 50 ∧ Cand g (slotsFor y.length) (slotsFor y.width) (-1) (r, c)) ∧
  (∀ r c, assign_decision g y = AssignResult.docked r c true →
    (y.oil_level < 50 ∨ 15 ≤ y.waiting_time) ∧
    Cand g (slotsFor y.length) (slotsFor y.width) (-3) (r, c))

/-- C2: the eligibility policy of one allocation attempt — oil below 50
restricts to fuel docks (failing when none fits), otherwise free first
with a fuel-dock fallback only after 15 time units of waiting; a
low-fuel task is never placed on free cells, and a fuel-dock placement
implies low fuel or a wait of at least 15.  The quay hypothesis holds
on every reachable grid (`reachable_quay_col0`). -/
theorem C2_allocation_policy (g : Grid) (y : YachtS)
    (hq : ∀ r, r < PORT_ROWS → g r 0 = -2)
    (hl : 0 < y.length) (hw : 0 < y.width) : AssignPolicyOK g y := by
  have hsl : 0 < slotsFor y.length := slotsFor_pos hl
  have hsw : 0 < slotsFor y.width := slotsFor_pos hw
  refine ⟨?_, ?_, ?_, ?_⟩
  · intro hoil
    constructor
    · intro hno
      simp only [assign_decision]
      rw [if_pos hoil, find_best_fail g _ _ (-3) hsl hsw hno]
      simp
    · intro r c onFuel h
      simp only [assign_decision] at h
      rw [if_pos hoil] at h
      rcases find_best_cases g (slotsFor y.length) (slotsFor y.width) (-3) with
        hf | ⟨p, -, hc, heq⟩
      · rw [hf] at h
        simp at h
      · rw [heq] at h
        rw [if_pos (show (p.1 : Int) ≠ -1 ∧ (p.2 : Int) ≠ -1 from
          ⟨by omega, by omega⟩)] at h
        injection h with h1 h2 h3
        simp only [Int.toNat_natCast] at h1 h2
        subst h1; subst h2
        exact ⟨h3.symm,
          (cand_iff_can_dock g _ _ (-3) hsl hsw p.1 p.2).mpr hc⟩
  · intro hoil
    refine ⟨?_, ?_, ?_, ?_⟩
    · rintro ⟨p0, hp0⟩
      obtain ⟨p, -, heq, -, -⟩ :=
        find_best_found g _ _ (-1) hq hsl hsw p0 hp0
      refine ⟨p.1, p.2, ?_⟩
      simp only [assign_decision]
      rw [if_neg hoil, heq]
      rw [if_pos (show (p.1 : Int) ≠ -1 ∧ (p.2 : Int) ≠ -1 from
        ⟨by omega, by omega⟩)]
      simp
    · rintro hno hw15 ⟨p0, hp0⟩
      obtain ⟨p, -, heq, -, -⟩ :=
        find_best_found g _ _ (-3) hq hsl hsw p0 hp0
      refine ⟨p.1, p.2, ?_⟩
      simp only [assign_decision]
      rw [if_neg hoil, find_best_fail g _ _ (-1) hsl hsw hno]
      rw [if_neg (by simp), if_pos hw15, heq]
      rw [if_pos (show (p.1 : Int) ≠ -1 ∧ (p.2 : Int) ≠ -1 from
        ⟨by omega, by omega⟩)]
      simp
    · intro hno hw15
      simp only [assign_decision]
      rw [if_neg hoil, find_best_fail g _ _ (-1) hsl hsw hno]
      rw [if_neg (by simp), if_neg (by omega)]
    · intro hno1 hno3
      simp only [assign_decision]
      rw [if_neg hoil, find_best_fail g _ _ (-1) hsl hsw hno1]
      rw [if_neg (by simp)]
      by_cases hw15 : 15 ≤ y.waiting_time
      · rw [if_pos hw15, find_best_fail g _ _ (-3) hsl hsw hno3]
        simp
      · rw [if_neg hw15]
  · intro r c h
    simp only [assign_decision] at h
    by_cases hoil : y.oil_level < 50
    · rw [if_pos hoil] at h
      rcases find_best_cases g (slotsFor y.length) (slotsFor y.width) (-3) with
        hf | ⟨p, -, hc, heq⟩
      · rw [hf] at h
        simp at h
      · rw [heq] at h
        rw [if_pos (show (p.1 : Int) ≠ -1 ∧ (p.2 : Int) ≠ -1 from
          ⟨by omega, by omega⟩)] at h
        injection h with h1 h2 h3
        exact absurd h3 (by simp)
    · rw [if_neg hoil] at h
      refine ⟨hoil, ?_⟩
      rcases find_best_cases g (slotsFor y.length) (slotsFor y.width) (-1) with
        hf | ⟨p, -, hc, heq⟩
      · rw [hf] at h
        rw [if_neg (by simp)] at h
        by_cases hw15 : 15 ≤ y.waiting_time
        · rw [if_pos hw15] at h
          rcases find_best_cases g (slotsFor y.length) (slotsFor y.width) (-3) with
            hf2 | ⟨p2, -, hc2, heq2⟩
          · rw [hf2] at h
            simp at h
          · rw [heq2] at h
            rw [if_pos (show (p2.1 : Int) ≠ -1 ∧ (p2.2 : Int) ≠ -1 from
              ⟨by omega, by omega⟩)] at h
            injection h with h1 h2 h3
            exact absurd h3 (by simp)
        · rw [if_neg hw15] at h
          simp at h
      · rw [heq] at h
        rw [if_pos (show (p.1 : Int) ≠ -1 ∧ (p.2 : Int) ≠ -1 from
          ⟨by omega, by omega⟩)] at h
        injection h with h1 h2 h3
        simp only [Int.toNat_natCast] at h1 h2
        subst h1; subst h2
        exact (cand_iff_can_dock g _ _ (-1) hsl hsw p.1 p.2).mpr hc
  · intro r c h
    simp only [assign_decision] at h
    by_cases hoil : y.oil_level < 50
    · rw [if_pos hoil] at h
      rcases find_best_cases g (slotsFor y.length) (slotsFor y.width) (-3) with
        hf | ⟨p, -, hc, heq⟩
      · rw [hf] at h
        simp at h
      · rw [heq] at h
        rw [if_pos (show (p.1 : Int) ≠ -1 ∧ (p.2 : Int) ≠ -1 from
          ⟨by omega, by omega⟩)] at h
        injection h with h1 h2 h3
        simp only [Int.toNat_natCast] at h1 h2
        subst h1; subst h2
        exact ⟨Or.inl hoil,
          (cand_iff_can_dock g _ _ (-3) hsl hsw p.1 p.2).mpr hc⟩
    · rw [if_neg hoil] at h
      rcases find_best_cases g (slotsFor y.length) (slotsFor y.width) (-1) with
        hf | ⟨p, -, hc, heq⟩
      · rw [hf] at h
        rw [if_neg (by simp)] at h
        by_cases hw15 : 15 ≤ y.waiting_time
        · rw [if_pos hw15] at h
          rcases find_best_cases g (slotsFor y.length) (slotsFor y.width) (-3) with
            hf2 | ⟨p2, -, hc2, heq2⟩
          · rw [hf2] at h
            simp at h
          · rw [heq2] at h
            rw [if_pos (show (p2.1 : Int) ≠ -1 ∧ (p2.2 : Int) ≠ -1 from
              ⟨by omega, by omega⟩)] at h
            injection h with h1 h2 h3
            simp only [Int.toNat_natCast] at h1 h2
            subst h1; subst h2
            exact ⟨Or.inr hw15,
              (cand_iff_can_dock g _ _ (-3) hsl hsw p2.1 p2.2).mpr hc2⟩
        · rw [if_neg hw15] at h
          simp at h
      · rw [heq] at h
        rw [if_pos (show (p.1 : Int) ≠ -1 ∧ (p.2 : Int) ≠ -1 from
          ⟨by omega, by omega⟩)] at h
        injection h with h1 h2 h3
        exact absurd h3 (by simp)

/-! ### Claim C3: the placement search -/

/-- Claim C3, as a predicate on one search: the validity test accepts
exactly the in-bounds, class-matching footprints and the scan covers
every such position; every candidate's score is the minimum over the
spanned columns of the smaller of the leftward and rightward same-row
quay distances; with no candidate the failure sentinel is returned;
with candidates the returned position is valid, of globally minimal
score, first in row-major order among minimal-score candidates; and
re-running the search on the same snapshot returns the same result. -/
def SelectsBestSpotOK (g : Grid) (sl sw : Nat) (required : Int) : Prop :=
  (∀ r c, can_dock_here g r c sl sw required = true ↔ Cand g sl sw required (r, c)) ∧
  (∀ p, Cand g sl sw required p → p ∈ scanPositions sl sw) ∧
  (∀ p, Cand g sl sw required p → ∀ ld rd : Nat → Nat,
    (∀ j < sw, IsLeftQuayDist g p.1 (p.2 + j) (ld j) ∧
      IsRightQuayDist g p.1 (p.2 + j) (rd j)) →
    candScore g p.1 p.2 sw =
      (List.range sw).foldl (fun m j => min m (min (ld j) (rd j)))
        (PORT_COLS * SLOT_SIZE)) ∧
  ((∀ p, ¬ Cand g sl sw required p) →
    find_best_docking_spot g sl sw required = ⟨-1, -1, PORT_COLS * SLOT_SIZE⟩) ∧
  (∀ p0, Cand g sl sw required p0 →
    ∃ p, Cand g sl sw required p ∧
      find_best_docking_spot g sl sw required =
        ⟨(p.1 : Int), (p.2 : Int), candScore g p.1 p.2 sw⟩ ∧
      (∀ q, Cand g sl sw required q →
        candScore g p.1 p.2 sw ≤ candScore g q.1 q.2 sw) ∧
      (∀ q, Cand g sl sw required q →
        candScore g q.1 q.2 sw = candScore g p.1 p.2 sw →
        p.1 < q.1 ∨ (p.1 = q.1 ∧ p.2 ≤ q.2))) ∧
  (∀ g2 : Grid, g2 = g →
    find_best_docking_spot g2 sl sw required = find_best_docking_spot g sl sw required)

/-- C3: the placement search considers exactly the in-bounds positions
whose cells all hold the required class, scores each candidate by the
minimum over spanned columns of the smaller left/right same-row quay
distance, returns a candidate of globally minimal score with ties
broken by first position in row-major scan order, and is deterministic
on a fixed snapshot.  The quay hypothesis holds on every reachable grid
(`reachable_quay_col0`). -/
theorem C3_best_spot_selection (g : Grid) (sl sw : Nat) (required : Int)
    (hq : ∀ r, r < PORT_ROWS → g r 0 = -2) (hsl : 0 < sl) (hsw : 0 < sw) :
    SelectsBestSpotOK g sl sw required := by
  refine ⟨?_, ?_, ?_, ?_, ?_, ?_⟩
  · intro r c
    exact (cand_iff_can_dock g sl sw required hsl hsw r c).symm
  · exact cand_mem_scanPositions g sl sw required
  · intro p hp ld rd hld
    unfold candScore
    have hagree : ∀ j ∈ List.range sw,
        colDist g p.1 (p.2 + j) = min (ld j) (rd j) := by
      intro j hj
      rw [List.mem_range] at hj
      obtain ⟨hldj, hrdj⟩ := hld j hj
      unfold colDist
      rw [isLeftQuayDist_unique g p.1 (p.2 + j) (leftDist g p.1 (p.2 + j)) (ld j)
        (leftDist_isLeftQuayDist g p.1 (p.2 + j)) hldj]
      rw [isRightQuayDist_unique g p.1 (p.2 + j) (rightDist g p.1 (p.2 + j)) (rd j)
        (rightDist_isRightQuayDist g p.1 (p.2 + j)) hrdj]
    exact foldl_min_congr (fun j => colDist g p.1 (p.2 + j))
      (fun j => min (ld j) (rd j)) (List.range sw) (PORT_COLS * SLOT_SIZE) hagree
  · exact find_best_fail g sl sw required hsl hsw
  · exact find_best_found g sl sw required hq hsl hsw
  · intro g2 h
    rw [h]

/-! ### Claim C4: mutual exclusion and exact blocks -/

/-- Claim C4, as a predicate on a protocol state: blocks of distinct
active ids never overlap, and the cells holding an active id are
exactly that entry's footprint block. -/
def ExclusiveBlocksOK (s : SimState) : Prop :=
  (∀ e1 ∈ s.active, ∀ e2 ∈ s.active, e1.y.id ≠ e2.y.id →
    ∀ r c, ¬ (covered e1 r c ∧ covered e2 r c)) ∧
  (∀ e ∈ s.active, ∀ r c, r < PORT_ROWS → c < PORT_COLS →
    (s.grid r c = e.y.id ↔ covered e r c))

/-- C4: in every state reachable by claim and release steps, no grid
cell is occupied by two distinct task ids, and the cells occupied by
one task id form exactly one rectangular block of that task's
footprint. -/
theorem C4_mutual_exclusion (s : SimState) (h : Reachable s) :
    ExclusiveBlocksOK s := by
  have hInv := inv_of_reachable h
  constructor
  · rintro e1 h1 e2 h2 hne r c ⟨hc1, hc2⟩
    have v1 := hInv.cov e1 h1 r c hc1
    have v2 := hInv.cov e2 h2 r c hc2
    rw [v1] at v2
    exact hne v2
  · intro e he r c h20 h25
    exact inv_block_iff hInv e he r c h20 h25

/-- Witness: the claim applied to the initial (reachable) state. -/
theorem C4_mutual_exclusion_witness :
    ExclusiveBlocksOK ⟨initGrid, []⟩ :=
  C4_mutual_exclusion ⟨initGrid, []⟩ Reachable.init

/-! ### Claim C5: refuel completion re-queues pending-service tasks -/

/-- Claim C5, as a predicate on the fuel-station branch: with a service
flag still set the task ends the branch waiting (state 1, not the
leaving state 3), with its wait counter reset to 0, its region released
and itself re-enqueued (subject to the documented queue-capacity
policy); only with both flags clear does it leave (state 3). -/
def FuelRequeueOK (g : Grid) (st : StatsS) (q : List YachtS) (y : YachtS) : Prop :=
  (y.need_cleaning = true ∨ y.need_repair = true →
    (fuel_station_branch g st q y).stateAfter = 1 ∧
    (fuel_station_branch g st q y).stateAfter ≠ 3 ∧
    (fuel_station_branch g st q y).yacht.waiting_time = 0 ∧
    (fuel_station_branch g st q y).yacht.oil_level = 100 ∧
    (fuel_station_branch g st q y).queue =
      add_to_queue q (fuel_station_branch g st q y).yacht ∧
    (q.length < MAX_QUEUE →
      (fuel_station_branch g st q y).yacht ∈ (fuel_station_branch g st q y).queue) ∧
    (fuel_station_branch g st q y).grid =
      release_slot g y.id (slotsFor y.length) (slotsFor y.width)) ∧
  (y.need_cleaning = false → y.need_repair = false →
    (fuel_station_branch g st q y).stateAfter = 3 ∧
    (fuel_station_branch g st q y).yacht.oil_level = 100)

/-- C5: a task whose refuel episode reaches 100 while needs-cleaning or
needs-repair is still set releases its region, resets its wait counter,
re-enqueues and returns to the waiting state rather than leaving; only
with both flags clear does it transition to leaving. -/
theorem C5_refuel_requeue (g : Grid) (st : StatsS) (q : List YachtS)
    (y : YachtS) (h0 : 0 ≤ y.oil_level) (h1 : y.oil_level ≤ 100) :
    FuelRequeueOK g st q y := by
  have hloop := refuelLoop_reaches y.oil_level h0 h1
  constructor
  · intro hflag
    have hcond : ({ y with oil_level := (refuelLoop y.oil_level).1 }.need_cleaning ||
        { y with oil_level := (refuelLoop y.oil_level).1 }.need_repair) = true := by
      rcases hflag with h | h <;> simp [h]
    have hstate : (fuel_station_branch g st q y).stateAfter = 1 := by
      simp [fuel_station_branch, hcond]
    have hyacht : (fuel_station_branch g st q y).yacht =
        { y with oil_level := 100, waiting_time := 0 } := by
      simp [fuel_station_branch, hcond, hloop]
    have hqueue : (fuel_station_branch g st q y).queue =
        add_to_queue q (fuel_station_branch g st q y).yacht := by
      simp [fuel_station_branch, hcond]
    have hgrid : (fuel_station_branch g st q y).grid =
        release_slot g y.id (slotsFor y.length) (slotsFor y.width) := by
      simp [fuel_station_branch, hcond]
    refine ⟨hstate, by rw [hstate]; norm_num, by rw [hyacht], by rw [hyacht],
      hqueue, ?_, hgrid⟩
    intro hlen
    rw [hqueue, add_to_queue, if_pos hlen]
    exact List.mem_append.mpr (Or.inr (List.mem_cons_self _ _))
  · intro hc hr
    have hcond : ({ y with oil_level := (refuelLoop y.oil_level).1 }.need_cleaning ||
        { y with oil_level := (refuelLoop y.oil_level).1 }.need_repair) = false := by
      simp [hc, hr]
    constructor
    · simp [fuel_station_branch, hcond]
    · simp [fuel_station_branch, hcond, hloop]

/-! ### Claim C6: silent capacity drops -/

/-- Claim C6: an enqueue at queue capacity leaves the queue unchanged,
and a registration into the docked list at capacity — after a
successful grid claim — is dropped while the claimed cells stay marked
with the task's id, leaving an owner absent from the registry. -/
def CapacityDropOK : Prop :=
  (∀ (q : List YachtS) (y : YachtS), MAX_QUEUE ≤ q.length →
    add_to_queue q y = q) ∧
  (∀ (g : Grid) (q d : List YachtS) (y : YachtS) (r c : Nat) (onFuel : Bool),
    MAX_DOCKED ≤ d.length →
    assign_decision g y = AssignResult.docked r c onFuel →
    (assign_to_port g q d y).docked = d ∧
    (∀ i < slotsFor y.length, ∀ j < slotsFor y.width,
      (assign_to_port g q d y).grid (r + i) (c + j) = y.id) ∧
    ((∀ e ∈ d, e.id ≠ y.id) →
      ∀ e ∈ (assign_to_port g q d y).docked, e.id ≠ y.id))

/-- C6: both capacity-exhaustion policies are silent no-ops — a full
admission queue drops the enqueue unchanged, and a full docked registry
drops the registration after a successful grid claim, leaving the
claimed block owned by a task absent from the registry. -/
theorem C6_capacity_drops : CapacityDropOK := by
  constructor
  · intro q y hq
    unfold add_to_queue
    rw [if_neg (by omega)]
  · intro g q d y r c onFuel hd hdec
    have hport : assign_to_port g q d y =
        ⟨claimBlock g y.id r c (slotsFor y.length) (slotsFor y.width),
          remove_from_queue q y.id, add_to_docked d y,
          if onFuel then 4 else 2⟩ := by
      unfold assign_to_port
      rw [hdec]
    have hdocked : (assign_to_port g q d y).docked = d := by
      rw [hport]
      show add_to_docked d y = d
      unfold add_to_docked
      rw [if_neg (by omega)]
    refine ⟨hdocked, ?_, ?_⟩
    · intro i hi j hj
      rw [hport]
      show claimBlock g y.id r c _ _ (r + i) (c + j) = y.id
      simp only [claimBlock]
      rw [if_pos (show r ≤ r + i ∧ r + i < r + slotsFor y.length ∧
        c ≤ c + j ∧ c + j < c + slotsFor y.width by omega)]
    · intro hall e he
      rw [hdocked] at he
      exact hall e he

/-! ### Claim C7: footprint computation and claimed-region shape -/

/-- Claim C7: the computed footprint is the ceiling of each dimension
divided by the cell size, and the cells a task's claim marks with its
id are exactly one block of that footprint. -/
def FootprintOK : Prop :=
  (∀ x : Nat, (slotsFor x : Int) = Int.ceil ((x : ℚ) / (SLOT_SIZE : ℚ))) ∧
  (∀ s : SimState, Reachable s → ∀ e ∈ s.active,
    ∀ r c, r < PORT_ROWS → c < PORT_COLS →
      (s.grid r c = e.y.id ↔
        (e.r ≤ r ∧ r < e.r + slotsFor e.y.length ∧
         e.c ≤ c ∧ c < e.c + slotsFor e.y.width)))

/-- C7: every footprint equals
`(ceil(length / slotSize), ceil(width / slotSize))` in cells, and any
region a task successfully claims consists of exactly that many rows
and columns of cells, all marked with the task's id. -/
theorem C7_footprint : FootprintOK := by
  constructor
  · intro x
    have h1 : x ≤ 5 * slotsFor x := by unfold slotsFor SLOT_SIZE; omega
    have h2 : 5 * slotsFor x < x + 5 := by unfold slotsFor SLOT_SIZE; omega
    have h5 : ((SLOT_SIZE : Nat) : ℚ) = 5 := by norm_num [SLOT_SIZE]
    rw [eq_comm, Int.ceil_eq_iff, h5]
    constructor
    · rw [lt_div_iff₀ (by norm_num : (0 : ℚ) < 5)]
      push_cast
      qify at h2
      linarith
    · rw [div_le_iff₀ (by norm_num : (0 : ℚ) < 5)]
      push_cast
      qify at h1
      linarith
  · intro s h e he r c h20 h25
    exact inv_block_iff (inv_of_reachable h) e he r c h20 h25

/-! ### Claim C8: the 12 x 8 scenario

A task of length 12 and width 8 has footprint (3, 2).  On the grid
whose non-quay cells are all unoccupied, a valid candidate can never
contain a quay cell, so no candidate scores 0: the minimal
quay-distance score is 1, attained first at (0, 1), directly adjacent
to quay column 0. -/

/-- The scenario grid: the partitioner's quay columns, every other cell
unoccupied (free). -/
def gFree : Grid := fun _ c => if initClass c = -2 then -2 else -1

set_option maxRecDepth 100000 in
/-- Counterexample to C8 as stated: on the all-free grid the search for
the (3, 2) footprint returns position (0, 1) with minimal score 1, not
the claimed score 0. -/
theorem C8_score_counterexample :
    slotsFor 12 = 3 ∧ slotsFor 8 = 2 ∧
    find_best_docking_spot gFree (slotsFor 12) (slotsFor 8) (-1) = ⟨0, 1, 1⟩ ∧
    (find_best_docking_spot gFree (slotsFor 12) (slotsFor 8) (-1)).dist ≠ 0 := by
  have h : find_best_docking_spot gFree (slotsFor 12) (slotsFor 8) (-1) =
      ⟨0, 1, 1⟩ := by decide
  exact ⟨by decide, by decide, h, by rw [h]; decide⟩

set_option maxRecDepth 100000 in
/-- C8 as amended: the footprint is (3, 2); on the grid whose non-quay
cells are all unoccupied the search finds it at (0, 1) with minimal
quay-distance score 1 — one cell from quay column 0 — and every valid
candidate scores at least 1 (score 0 is impossible because a
candidate's own cells are never quay cells). -/
theorem C8_score_amended :
    slotsFor 12 = 3 ∧ slotsFor 8 = 2 ∧
    find_best_docking_spot gFree 3 2 (-1) = ⟨0, 1, 1⟩ ∧
    gFree 0 0 = -2 ∧
    (∀ p ∈ scanPositions 3 2, can_dock_here gFree p.1 p.2 3 2 (-1) = true →
      1 ≤ candScore gFree p.1 p.2 2) := by
  exact ⟨by decide, by decide, by decide, by decide, by decide⟩

/-! ### Claim C9: both service episodes before departure -/

/-- Claim C9, as a predicate on the docked-service branch against the
initial crew pool: the first half of the pool has the cleaning job and
the rest the repair job, and a task needing both services performs a
cleaning episode with a crew from the cleaning half, then a repair
episode with a crew from the repair half, sequentially and both before
releasing its region and leaving, with the cleaning and repair counters
each incremented exactly once. -/
def BothServicesOK (st : StatsS) (g : Grid) (y : YachtS) : Prop :=
  (∀ k < MAX_CREWS, (init_crews.getD k dummyCrew).job_id =
    if k < MAX_CREWS / 2 then 1 else 2) ∧
  ∃ i j, i < MAX_CREWS / 2 ∧ MAX_CREWS / 2 ≤ j ∧ j < MAX_CREWS ∧
    (init_crews.getD i dummyCrew).job_id = 1 ∧
    (init_crews.getD j dummyCrew).job_id = 2 ∧
    docked_branch init_crews st g y =
      some ([ServiceEv.cleaningEpisode i, ServiceEv.repairEpisode j,
          ServiceEv.releaseRegion, ServiceEv.leave],
        { st with total_cleanings := st.total_cleanings + 1, total_repairs := st.total_repairs + 1 },
        release_slot g y.id (slotsFor y.length) (slotsFor y.width))

/-- C9: with the pool of 4 (first 2 cleaning, last 2 repair), a docked
task needing both cleaning and repair runs the cleaning episode with a
cleaning-half crew, then the repair episode with a repair-half crew,
both before releasing its region and leaving; the cleaning and repair
counters each grow by exactly 1 for this task. -/
theorem C9_both_services (st : StatsS) (g : Grid) (y : YachtS)
    (hc : y.need_cleaning = true) (hr : y.need_repair = true) :
    BothServicesOK st g y := by
  have hfind1 : find_idle_crew init_crews 0 (MAX_CREWS / 2) = some 0 := by decide
  have hfind2 : find_idle_crew init_crews (MAX_CREWS / 2) MAX_CREWS = some 2 := by
    decide
  refine ⟨by decide, 0, 2, by decide, by decide, by decide, by decide, by decide, ?_⟩
  simp only [docked_branch, hc, hr, hfind1, hfind2, if_pos]
  rfl

/-! ### Claim C10: refuel counter grows even at fuel level 100 -/

/-- Claim C10, first part: on entry to the fuel-station branch with
fuel already 100, the refuel counter is incremented exactly once before
any fueling, the loop performs zero increments, the fuel level is
unchanged, no cleaning or repair is recorded during the placement, and
with a pending service flag the task re-enqueues. -/
def RefuelCounterOK (g : Grid) (st : StatsS) (q : List YachtS) (y : YachtS) : Prop :=
  (fuel_station_branch g st q y).stats.total_refuels = st.total_refuels + 1 ∧
  (fuel_station_branch g st q y).increments = 0 ∧
  (fuel_station_branch g st q y).yacht.oil_level = y.oil_level ∧
  (fuel_station_branch g st q y).stats.total_cleanings = st.total_cleanings ∧
  (fuel_station_branch g st q y).stats.total_repairs = st.total_repairs ∧
  (y.need_cleaning = true ∨ y.need_repair = true →
    (fuel_station_branch g st q y).stateAfter = 1 ∧
    (fuel_station_branch g st q y).queue =
      add_to_queue q (fuel_station_branch g st q y).yacht)

/-- Claim C10, second part: the fuel-level-100 fuel-dock placement is
reachable via the wait-overflow path — a fully fueled task that has
waited at least 15 units, on a grid with no free candidate but with a
fuel-dock candidate, is placed at a fuel dock. -/
def OverflowFuelPlacementOK (g : Grid) (y : YachtS) : Prop :=
  15 ≤ y.waiting_time →
  (∀ r, r < PORT_ROWS → g r 0 = -2) →
  (∀ p, ¬ Cand g (slotsFor y.length) (slotsFor y.width) (-1) p) →
  (∃ p, Cand g (slotsFor y.length) (slotsFor y.width) (-3) p) →
  ∃ r c, assign_decision g y = AssignResult.docked r c true

/-- C10: on every entry to the fuel-docked state the refuel counter is
incremented exactly once before any fueling, even at fuel level 100 —
reachable when a fully-refueled task with a pending service flag is
placed at a fuel dock again via the wait-time overflow — in which case
the loop performs zero increments, no cleaning or repair service is
recorded during the placement, and the task re-enqueues, so the refuel
counter grows without any fuel-level change. -/
theorem C10_refuel_counter :
    (∀ (g : Grid) (st : StatsS) (q : List YachtS) (y : YachtS),
      y.oil_level = 100 → RefuelCounterOK g st q y) ∧
    (∀ (g : Grid) (y : YachtS), y.oil_level = 100 →
      0 < y.length → 0 < y.width → OverflowFuelPlacementOK g y) := by
  constructor
  · intro g st q y hoil
    have hloop100 : refuelLoop (100 : Int) = (100, 0) := by
      have := refuelLoop_reaches 100 (by norm_num) (by norm_num)
      simpa using this
    have hloop : refuelLoop y.oil_level = (100, 0) := by
      rw [hoil, hloop100]
    refine ⟨?_, ?_, ?_, ?_, ?_, ?_⟩
    · by_cases hflag : ({ y with oil_level := (refuelLoop y.oil_level).1 }.need_cleaning ||
          { y with oil_level := (refuelLoop y.oil_level).1 }.need_repair) = true
      · simp [fuel_station_branch, hflag]
      · simp [fuel_station_branch, hflag]
    · by_cases hflag : ({ y with oil_level := (refuelLoop y.oil_level).1 }.need_cleaning ||
          { y with oil_level := (refuelLoop y.oil_level).1 }.need_repair) = true
      · simp [fuel_station_branch, hflag, hloop]
      · simp [fuel_station_branch, hflag, hloop]
    · by_cases hflag : ({ y with oil_level := (refuelLoop y.oil_level).1 }.need_cleaning ||
          { y with oil_level := (refuelLoop y.oil_level).1 }.need_repair) = true
      · simp [fuel_station_branch, hflag, hloop, hoil, hloop100]
      · simp [fuel_station_branch, hflag, hloop, hoil, hloop100]
    · by_cases hflag : ({ y with oil_level := (refuelLoop y.oil_level).1 }.need_cleaning ||
          { y with oil_level := (refuelLoop y.oil_level).1 }.need_repair) = true
      · simp [fuel_station_branch, hflag]
      · simp [fuel_station_branch, hflag]
    · by_cases hflag : ({ y with oil_level := (refuelLoop y.oil_level).1 }.need_cleaning ||
          { y with oil_level := (refuelLoop y.oil_level).1 }.need_repair) = true
      · simp [fuel_station_branch, hflag]
      · simp [fuel_station_branch, hflag]
    · intro hpend
      have hflag : ({ y with oil_level := (refuelLoop y.oil_level).1 }.need_cleaning ||
          { y with oil_level := (refuelLoop y.oil_level).1 }.need_repair) = true := by
        rcases hpend with h | h <;> simp [h]
      constructor
      · simp [fuel_station_branch, hflag]
      · simp [fuel_station_branch, hflag]
  · intro g y hoil hl hw hw15 hq hno1 hex3
    have hsl : 0 < slotsFor y.length := slotsFor_pos hl
    have hsw : 0 < slotsFor y.width := slotsFor_pos hw
    obtain ⟨p0, hp0⟩ := hex3
    obtain ⟨p, -, heq, -, -⟩ :=
      find_best_found g _ _ (-3) hq hsl hsw p0 hp0
    refine ⟨p.1, p.2, ?_⟩
    simp only [assign_decision]
    rw [if_neg (by rw [hoil]; norm_num),
      find_best_fail g _ _ (-1) hsl hsw hno1]
    rw [if_neg (by simp), if_pos hw15, heq]
    rw [if_pos (show (p.1 : Int) ≠ -1 ∧ (p.2 : Int) ≠ -1 from
      ⟨by omega, by omega⟩)]
    simp

/-! ### Concrete data for witnesses -/

/-- A small grid with a quay in column 0 and every other cell free. -/
def gW : Grid := fun _ c => if c = 0 then -2 else -1

/-- A grid with a quay in column 0, a single free 2 x 1 block at
rows 0-1 of column 1, and every other cell held by yacht 888. -/
def gOne : Grid := fun r c =>
  if c = 0 then -2 else if c = 1 ∧ r < 2 then -1 else 888

/-- The initialization grid with every free-class cell held by
yacht 999 (so only fuel-dock regions are available). -/
def gBusy : Grid := fun _ c => if initClass c = -1 then 999 else initClass c

lemma gBusy_ne_free : ∀ r c, gBusy r c ≠ -1 := by
  intro r c
  unfold gBusy
  split
  · norm_num
  · assumption

def yW : YachtS := ⟨1, 10, 5, 80, false, false, 0⟩
def yClean : YachtS := ⟨1, 10, 5, 40, true, false, 0⟩
def yFull : YachtS := ⟨1, 10, 5, 100, true, false, 20⟩
def yOverflow : YachtS := ⟨2, 10, 5, 100, true, false, 15⟩
def yBoth : YachtS := ⟨1, 10, 5, 80, true, true, 0⟩
def stZero : StatsS := ⟨0, 0, 0, 0, 0, 0⟩
def qFull : List YachtS := List.replicate MAX_QUEUE yW
def dFull : List YachtS := List.replicate MAX_DOCKED { yW with id := 50 }

/-- A grid holding one claimed 2 x 1 block of yacht 7 at (0, 1). -/
def gC1 : Grid := claimBlock gW 7 0 1 2 1

/-! ### Witnesses -/

/-- Witness for C1: a concrete release of yacht 7's block. -/
theorem C1_release_witness : (1 : Int) ≤ 7 ∧ ReleaseRestoresOK gC1 7 2 1 :=
  ⟨by decide, C1_release_restores_partition gC1 7 2 1 (by decide)⟩

/-- Witness for C2: the policy at a concrete grid and yacht. -/
theorem C2_allocation_witness :
    (∀ r, r < PORT_ROWS → gW r 0 = -2) ∧ 0 < yW.length ∧ 0 < yW.width ∧
    AssignPolicyOK gW yW :=
  ⟨by decide, by decide, by decide,
    C2_allocation_policy gW yW (by decide) (by decide) (by decide)⟩

/-- Witness for C3: the search characterization at a concrete grid and
footprint. -/
theorem C3_best_spot_witness :
    (∀ r, r < PORT_ROWS → gW r 0 = -2) ∧ 0 < 2 ∧ 0 < 1 ∧
    SelectsBestSpotOK gW 2 1 (-1) :=
  ⟨by decide, by decide, by decide,
    C3_best_spot_selection gW 2 1 (-1) (by decide) (by decide) (by decide)⟩

/-- Witness for C5: a concrete yacht with a pending cleaning flag. -/
theorem C5_refuel_requeue_witness :
    0 ≤ yClean.oil_level ∧ yClean.oil_level ≤ 100 ∧
    FuelRequeueOK gW stZero [] yClean :=
  ⟨by decide, by decide,
    C5_refuel_requeue gW stZero [] yClean (by decide) (by decide)⟩

set_option maxRecDepth 100000 in
/-- Witness for C6: a full queue drops an enqueue, and a full docked
list drops a registration after a concrete successful claim. -/
theorem C6_capacity_drops_witness :
    add_to_queue qFull yW = qFull ∧ (assign_to_port gOne [] dFull yW).docked = dFull :=
  ⟨C6_capacity_drops.1 qFull yW (by decide),
    (C6_capacity_drops.2 gOne [] dFull yW 0 1 false (by decide) (by decide)).1⟩

/-- Witness for C7: the footprint of the 12-metre length and the exact
block property at the initial reachable state. -/
theorem C7_footprint_witness :
    (slotsFor 12 : Int) = Int.ceil ((12 : ℚ) / (SLOT_SIZE : ℚ)) ∧
    (∀ e ∈ (⟨initGrid, []⟩ : SimState).active,
      ∀ r c, r < PORT_ROWS → c < PORT_COLS →
        ((⟨initGrid, []⟩ : SimState).grid r c = e.y.id ↔
          (e.r ≤ r ∧ r < e.r + slotsFor e.y.length ∧
           e.c ≤ c ∧ c < e.c + slotsFor e.y.width))) :=
  ⟨C7_footprint.1 12, C7_footprint.2 ⟨initGrid, []⟩ Reachable.init⟩

/-- Witness for C9: a concrete yacht needing both services. -/
theorem C9_both_services_witness :
    yBoth.need_cleaning = true ∧ yBoth.need_repair = true ∧
    BothServicesOK stZero gW yBoth :=
  ⟨rfl, rfl, C9_both_services stZero gW yBoth rfl rfl⟩

/-- Witness for C10: the counter behaviour for a fully fueled yacht
with a pending flag, and a concrete wait-overflow fuel placement with
fuel level 100. -/
theorem C10_refuel_counter_witness :
    RefuelCounterOK gW stZero [] yFull ∧
    (∃ r c, assign_decision gBusy yOverflow = AssignResult.docked r c true) :=
  ⟨C10_refuel_counter.1 gW stZero [] yFull rfl,
    C10_refuel_counter.2 gBusy yOverflow rfl (by decide) (by decide)
      (by decide) (by decide)
      (fun p hp => gBusy_ne_free (p.1 + 0) (p.2 + 0)
        (hp.2.2 0 (by decide) 0 (by decide)))
      ⟨(0, 19), by decide⟩⟩
